import Mathlib

/-!
# imappipe: fetch / extract / render / delete loop

A shallow embedding of `main.go`.  The IMAP connection, the mail parser, the
template engine, the regular expression package and the HTML packages are
libraries the program calls; each is represented by the values its calls
return (for data: a message body is given by what `mail.CreateReader` and
`NextPart` return on it) or by a record of functions (for packages).  Go's
`error` is `Option GoError`, `none` being `nil`.

The goroutine that runs `c.Fetch` and the loop that drains the `messages`
channel communicate only through that channel and through `done`; the channel
preserves order, so the loop sees the list of items `Fetch` delivered before
closing the channel, and afterwards the error `Fetch` returned.  The capacity
of the channel only decides when the producer waits and is not represented.
Of the log, the errors printed with `log.Println` are recorded; the
diagnostics printed under `state.verbose > 1` are not.
-/

namespace Imappipe

/-! ## Errors -/

/-- Go error values.  `ioEOF` is `io.EOF`, `errEOF` is the program's own
`var errEOF = errors.New("EOF: IDLE exited")`, every other error value is
`other` with its text. -/
inductive GoError where
  | ioEOF
  | errEOF
  | other (msg : String)
  deriving DecidableEq, Repr

deriving instance DecidableEq for Except

/-! ## Data model (`main.go` lines 27-56) -/

structure Header where
  From : List String
  To : List String
  Date : String
  Subject : String
  Map : List (String × List String)
  deriving DecidableEq, Repr

structure Attachment where
  Name : String
  Content : String
  deriving DecidableEq, Repr

structure Message where
  Date : String
  Header : Header
  Body : List String
  Attachment : List Attachment
  deriving DecidableEq, Repr

structure stateT where
  imap : String
  mailbox : String
  username : String
  password : String
  template : String
  pollTimeout : Nat
  verbose : Int
  noTLS : Bool
  deriving Repr

/-! ## Library values: `io`, `go-message/mail` -/

/-- An `io.Reader`, given by what `io.ReadAll` returns on it: the data read
until an error or the end, and that error (`none` at an ordinary end). -/
structure Reader where
  data : String
  err : Option GoError
  deriving DecidableEq, Repr

/-- The call `io.ReadAll(r)`: "reads from r until an error or EOF and returns
the data it read". -/
def ioReadAll (r : Reader) : String × Option GoError := (r.data, r.err)

/-- A `*mail.Address`, given by its display string. -/
structure Address where
  str : String
  deriving DecidableEq, Repr

/-- The method `(*mail.Address).String`. -/
def Address.String (a : Address) : String := a.str

structure InlineHeader where
  contentType : String
  deriving DecidableEq, Repr

/-- A `*mail.AttachmentHeader`, given by the outcome of decoding its
filename. -/
structure AttachmentHeader where
  name : Except GoError String
  deriving DecidableEq, Repr

/-- The method `(*mail.AttachmentHeader).Filename`: the decoded filename, or
the empty string together with the error of the decoding. -/
def AttachmentHeader.Filename (h : AttachmentHeader) : String × Option GoError :=
  match h.name with
  | .ok s => (s, none)
  | .error e => ("", some e)

/-- The dynamic type of `p.Header`, a `mail.PartHeader`. -/
inductive PartHeader where
  | inline (h : InlineHeader)
  | attachment (h : AttachmentHeader)
  | other
  deriving DecidableEq, Repr

structure Part where
  Header : PartHeader
  Body : Reader
  deriving DecidableEq, Repr

/-- A `time.Time`, given by `t.Local().Format(time.RFC3339)`. -/
structure Time where
  localRFC3339 : String
  deriving DecidableEq, Repr

/-- The `mail.Header` of a message, given by what its accessors return. -/
structure MailHeader where
  Date : Except GoError Time
  AddressList : String → Except GoError (List Address)
  Subject : Except GoError String
  Map : List (String × List String)

/-- A `*mail.Reader`: its header, the parts `NextPart` returns before its first
error, in declaration order, and that first error (`io.EOF` when the walk ends
at the ordinary end of the parts). -/
structure MailReader where
  Header : MailHeader
  parts : List Part
  last : GoError

/-- An `imap.Literal` holding a message body, given by what `mail.CreateReader`
returns on it. -/
structure Literal where
  reader : Except GoError MailReader

/-- The call `mail.CreateReader(r)`. -/
def mailCreateReader (r : Literal) : Except GoError MailReader := r.reader

/-! ## Library values: `go-imap` -/

/-- An `*imap.Message` as delivered by `Fetch`: `Body` is what
`msg.GetBody(&section)` returns (`none` for `nil`). -/
structure ImapMessage where
  SeqNum : Nat
  Body : Option Literal

/-- The method `(*imap.Message).GetBody`. -/
def ImapMessage.GetBody (msg : ImapMessage) : Option Literal := msg.Body

/-- An `*imap.MailboxStatus`; `Messages` is a `uint32`. -/
structure MailboxStatus where
  Name : String
  Messages : Nat
  deriving DecidableEq, Repr

structure Seq where
  Start : Nat
  Stop : Nat
  deriving DecidableEq, Repr

structure SeqSet where
  Set : List Seq
  deriving DecidableEq, Repr

/-- The method `(*imap.SeqSet).AddRange`, which swaps the bounds when they
come in the wrong order; the program calls it on the empty set only, where
inserting the range gives the set of that one range. -/
def SeqSet.AddRange (s : SeqSet) (start stop : Nat) : SeqSet :=
  if (stop < start ∧ stop ≠ 0) ∨ start = 0 then ⟨s.Set ++ [⟨stop, start⟩]⟩
  else ⟨s.Set ++ [⟨start, stop⟩]⟩

/-- The fetch item of the zero `imap.BodySectionName`. -/
def sectionFetchItem : String := "BODY[]"

/-- The value `imap.FormatFlagsOp(imap.AddFlags, true)`. -/
def addFlagsSilent : String := "+FLAGS.SILENT"

/-- The constant `imap.DeletedFlag`. -/
def DeletedFlag : String := "\\Deleted"

/-- The three methods of `*client.Client` that `eventpoll` calls, over a
connection state `σ`.  `Fetch` returns the items it sent on the channel before
closing it, and its error. -/
structure Client (σ : Type) where
  Fetch : σ → SeqSet → List String → σ × List ImapMessage × Option GoError
  Store : σ → SeqSet → String → List String → σ × Option GoError
  Expunge : σ → σ × Option GoError

/-- A call made on the connection. -/
inductive ConnOp where
  | Fetch (seqset : SeqSet) (items : List String)
  | Store (seqset : SeqSet) (item : String) (flags : List String)
  | Expunge
  deriving DecidableEq, Repr

/-! ## Library values: `regexp`, `bluemonday`, `html`, `text/template`, `os` -/

/-- The package `regexp`: `Compile r` is `none` when `r` is not a valid regular
expression, else the compiled expression, given by its `MatchString`. -/
structure RegexpLib where
  Compile : String → Option (String → Bool)

/-- The calls `bluemonday.StrictPolicy().Sanitize` and `html.UnescapeString`. -/
structure HtmlLib where
  Sanitize : String → String
  UnescapeString : String → String

/-- The `template.FuncMap` built by `output`.  A call that panics is an error:
`text/template` recovers a panic of a called function and returns it as the
error of `Execute`. -/
structure FuncMap where
  re : String → String → Except GoError Bool
  join : String → List String → String
  strip : String → String

/-- A parsed `*template.Template`, given by `Execute`: the bytes it wrote to
the buffer and its error. -/
abbrev Template := Message → String × Option GoError

/-- The package `text/template`: `Parse funcs text` is
`template.New("message").Funcs(funcs).Parse(text)`. -/
structure TemplateLib where
  Parse : FuncMap → String → Except GoError Template

/-- Everything outside the program that a run depends on: the formatted
`time.Now()`, the packages, and what `os.Stdout.Write` returns for a buffer
given what was written before it: the number of bytes it wrote and its
error. -/
structure Env where
  now : String
  regexp : RegexpLib
  html : HtmlLib
  tmpl : TemplateLib
  stdoutWrite : List String → String → Nat × Option GoError

/-- A step of a run that the statements order in time: a call made on the
connection, or a record handed to `output`. -/
inductive Event where
  | call (op : ConnOp)
  | render (m : Message)
  deriving DecidableEq, Repr

/-- What a run has done so far: the calls made on the connection, the records
handed to `output`, the bytes each `os.Stdout.Write` wrote to standard
output, and the errors printed with `log.Println`, each in order; `trace`
holds the calls and the records in the one order in which they happened. -/
structure Effects where
  ops : List ConnOp
  rendered : List Message
  stdout : List String
  log : List GoError
  trace : List Event
  deriving DecidableEq, Repr

def Effects.empty : Effects := ⟨[], [], [], [], []⟩

/-! ## `output` (lines 326-353) -/

/-- The template function `"re"`: `func(s string, r string) bool` compiles `r`
with `regexp.MustCompile` (which panics on an invalid expression) and returns
`re.MatchString(s)`. -/
def re (lib : RegexpLib) (s : String) (r : String) : Except GoError Bool :=
  match lib.Compile r with
  | none => .error (GoError.other ("regexp: Compile(" ++ r ++ ")"))
  | some compiled => .ok (compiled s)

/-- The template function `"join"`: `strings.Join(s, sep)`. -/
def join (sep : String) (s : List String) : String := sep.intercalate s

/-- The template function `"strip"`:
`html.UnescapeString(bluemonday.StrictPolicy().Sanitize(s))`. -/
def strip (lib : HtmlLib) (s : String) : String :=
  lib.UnescapeString (lib.Sanitize s)

def funcMap (env : Env) : FuncMap :=
  { re := re env.regexp, join := join, strip := strip env.html }

/-- The result of `output`: its error and the standard output afterwards. -/
structure OutputResult where
  err : Option GoError
  stdout : List String
  deriving DecidableEq, Repr

/-- The first `n` bytes of a buffer (a string stands for the bytes it holds,
one character of the model for one byte). -/
def firstBytes (n : Nat) (buf : String) : String := String.mk (buf.data.take n)

/-- The method `output`: parse the template, execute it into a buffer, and
only then hand the buffer to `os.Stdout.Write`, whose count is dropped and
whose error is returned; standard output receives the bytes that call
wrote. -/
def output (env : Env) (state : stateT) (m : Message) (stdout : List String) :
    OutputResult :=
  match env.tmpl.Parse (funcMap env) state.template with
  | .error err => ⟨some err, stdout⟩
  | .ok tmpl =>
    match (tmpl m).2 with
    | some err => ⟨some err, stdout⟩
    | none =>
      let wr := env.stdoutWrite stdout (tmpl m).1
      ⟨wr.2, stdout ++ [firstBytes wr.1 (tmpl m).1]⟩

/-! ## `eventpoll` (lines 174-281) -/

/-- The function `addressList`. -/
def addressList (al : List Address) : List String :=
  al.foldl (fun a v => a ++ [v.String]) []

/-- Append an error to the log when there is one (`if err != nil
\x7b log.Println(err) \x7d`). -/
def logErr (log : List GoError) (err : Option GoError) : List GoError :=
  match err with
  | some e => log ++ [e]
  | none => log

/-- The result of the part loop: the record, the log, and the error the loop
returned with (`none` when it left through `break`). -/
structure WalkResult where
  m : Message
  log : List GoError
  err : Option GoError
  deriving DecidableEq, Repr

/-- The loop over `mr.NextPart()` (lines 241-263), on the parts still to come
and the error that ends the walk. -/
def walkParts (last : GoError) : List Part → Message → List GoError → WalkResult
  | [], m, log =>
    if last = GoError.ioEOF then ⟨m, log, none⟩ else ⟨m, log, some last⟩
  | p :: ps, m, log =>
    match p.Header with
    | .inline _ =>
      let r := ioReadAll p.Body
      walkParts last ps { m with Body := m.Body ++ [r.1] } (logErr log r.2)
    | .attachment h =>
      let r := h.Filename
      walkParts last ps
        { m with Attachment := m.Attachment ++ [{ Name := r.1, Content := "" }] }
        (logErr log r.2)
    | .other => walkParts last ps m log

/-- The record as it stands when the part loop starts (lines 199-239): `Date`
and `Header.Date` start as the capture time; each header field is set when
its accessor returns no error and keeps its zero value otherwise. -/
def headerRecord (date : String) (mr : MailReader) : Message :=
  { Date := date,
    Header :=
      { Date := match mr.Header.Date with
          | .ok d => d.localRFC3339
          | .error _ => date,
        From := match mr.Header.AddressList "From" with
          | .ok l => addressList l
          | .error _ => [],
        To := match mr.Header.AddressList "To" with
          | .ok l => addressList l
          | .error _ => [],
        Subject := match mr.Header.Subject with
          | .ok subject => subject
          | .error _ => "",
        Map := mr.Header.Map },
    Body := [],
    Attachment := [] }

/-- The result of the loop over the channel: the effects so far and the error
the function returned with from inside the loop, if it did. -/
structure LoopResult where
  w : Effects
  err : Option GoError
  deriving DecidableEq, Repr

/-- The loop `for msg := range messages` (lines 198-268). -/
def processMessages (env : Env) (state : stateT) (date : String) :
    List ImapMessage → Effects → LoopResult
  | [], w => ⟨w, none⟩
  | msg :: rest, w =>
    match msg.GetBody with
    | none => processMessages env state date rest w
    | some r =>
      match mailCreateReader r with
      | .error err => ⟨w, some err⟩
      | .ok mr =>
        let walk := walkParts mr.last mr.parts (headerRecord date mr) w.log
        match walk.err with
        | some err => ⟨{ w with log := walk.log }, some err⟩
        | none =>
          let o := output env state walk.m w.stdout
          processMessages env state date rest
            { w with rendered := w.rendered ++ [walk.m],
                     stdout := o.stdout,
                     log := logErr walk.log o.err,
                     trace := w.trace ++ [Event.render walk.m] }

/-- The result of `eventpoll`: the connection, the effects, the returned
error. -/
structure PollResult (σ : Type) where
  conn : σ
  w : Effects
  err : Option GoError

/-- The method `eventpoll`. -/
def eventpoll {σ : Type} (cl : Client σ) (env : Env) (state : stateT) (c : σ)
    (mbox : MailboxStatus) (w : Effects) : PollResult σ :=
  let start := 1
  let upto := mbox.Messages
  if upto = 0 then ⟨c, w, none⟩
  else
    let seqset := SeqSet.AddRange ⟨[]⟩ start upto
    let items := [sectionFetchItem]
    let f := cl.Fetch c seqset items
    let w := { w with ops := w.ops ++ [ConnOp.Fetch seqset items],
                      trace := w.trace ++ [Event.call (ConnOp.Fetch seqset items)] }
    let date := env.now
    let l := processMessages env state date f.2.1 w
    match l.err with
    | some err => ⟨f.1, l.w, some err⟩
    | none =>
      match f.2.2 with
      | some err => ⟨f.1, l.w, some err⟩
      | none =>
        let item := addFlagsSilent
        let flags := [DeletedFlag]
        let s := cl.Store f.1 seqset item flags
        let w := { l.w with
          ops := l.w.ops ++ [ConnOp.Store seqset item flags],
          trace := l.w.trace ++ [Event.call (ConnOp.Store seqset item flags)] }
        match s.2 with
        | some err => ⟨s.1, w, some err⟩
        | none =>
          let e := cl.Expunge s.1
          ⟨e.1, { w with ops := w.ops ++ [ConnOp.Expunge],
                         trace := w.trace ++ [Event.call ConnOp.Expunge] }, e.2⟩

/-! ## `waitevent` (lines 291-324) -/

/-- A `client.Update` received from `c.Updates`: a `*client.MailboxUpdate`
carrying the mailbox status (the client builds it from its selected mailbox,
so `v.Mailbox` is not `nil`), or an update of any other type. -/
inductive Update where
  | MailboxUpdate (Mailbox : MailboxStatus)
  | other
  deriving DecidableEq, Repr

/-- A case taken by the `select` statement: `update := <-updates` or
`err := <-done`. -/
inductive SelectCase where
  | update (u : Update)
  | done (err : Option GoError)
  deriving DecidableEq, Repr

/-- What `waitevent` does to the goroutine running `IdleWithFallback`. -/
inductive WaitOp where
  | closeStop
  | recvDone
  deriving DecidableEq, Repr

structure WaitResult where
  mbox : Option MailboxStatus
  err : Option GoError
  ops : List WaitOp
  deriving DecidableEq, Repr

/-- The method `waitevent`, on the cases its `select` takes, in order, and on
`drain`, the value `<-done` receives once `stop` is closed (`none` when
`IdleWithFallback` never returns).  The result is `none` when the function
stays blocked: no further case is taken, or the drain never completes. -/
def waitevent (drain : Option (Option GoError)) : List SelectCase → Option WaitResult
  | [] => none
  | .update (.MailboxUpdate mb) :: _ =>
    match drain with
    | none => none
    | some _ => some ⟨some mb, none, [WaitOp.closeStop, WaitOp.recvDone]⟩
  | .update .other :: rest => waitevent drain rest
  | .done err :: _ =>
    match err with
    | none => some ⟨none, some GoError.errEOF, []⟩
    | some e => some ⟨none, some e, []⟩

/-! ## A simulated mailbox -/

/-- A message held by the simulated server. -/
structure SimMessage where
  body : Literal
  deleted : Bool

/-- A simulated server side of the connection: the messages of the selected
mailbox in sequence order (the message at position `i` has sequence number
`i + 1`), and the errors its three commands are set to fail with. -/
structure SimMailbox where
  msgs : List SimMessage
  fetchErr : Option GoError
  storeErr : Option GoError
  expungeErr : Option GoError

/-- Membership of a sequence number in a sequence set. -/
def SeqSet.Contains (s : SeqSet) (n : Nat) : Bool :=
  s.Set.any fun q => decide (q.Start ≤ n) && decide (n ≤ q.Stop)

/-- The items for the messages numbered from `i` on that are in the set. -/
def simFetchItems (s : SeqSet) : Nat → List SimMessage → List ImapMessage
  | _, [] => []
  | i, m :: ms =>
    if s.Contains i then ⟨i, some m.body⟩ :: simFetchItems s (i + 1) ms
    else simFetchItems s (i + 1) ms

/-- Flag as deleted the messages numbered from `i` on that are in the set. -/
def simMarkDeleted (s : SeqSet) : Nat → List SimMessage → List SimMessage
  | _, [] => []
  | i, m :: ms =>
    (if s.Contains i then { m with deleted := true } else m)
      :: simMarkDeleted s (i + 1) ms

/-- The simulated server as a `Client`: `Fetch` delivers one item with its
body for every numbered message in the set, `Store` of the deleted flag marks
them, `Expunge` removes the marked messages; a command set to fail changes
nothing (a failing `Fetch` still delivers its items first). -/
def simClient : Client SimMailbox where
  Fetch := fun mb s _ => (mb, simFetchItems s 1 mb.msgs, mb.fetchErr)
  Store := fun mb s item flags =>
    match mb.storeErr with
    | some e => (mb, some e)
    | none =>
      if item = addFlagsSilent ∧ DeletedFlag ∈ flags then
        ({ mb with msgs := simMarkDeleted s 1 mb.msgs }, none)
      else (mb, none)
  Expunge := fun mb =>
    match mb.expungeErr with
    | some e => (mb, some e)
    | none => ({ mb with msgs := mb.msgs.filter fun m => !m.deleted }, none)

/-! ## Stand-ins for the packages, on fragments of their input languages

The theorems about `re`, `output` and `eventpoll` hold for every
`RegexpLib`, `HtmlLib` and `TemplateLib`.  The instances below are used to
evaluate the program on concrete inputs and, for `strip`, to state when a
second `strip` changes nothing; each follows its package on the fragment
named in its comment and is not meant to be used outside it. -/

def chBackslash : Char := Char.ofNat 92
def chNewline : Char := Char.ofNat 10
def chReturn : Char := Char.ofNat 13
def chQuote : Char := Char.ofNat 34
def chApostrophe : Char := Char.ofNat 39
def chOpenBrace : Char := Char.ofNat 123
def chCloseBrace : Char := Char.ofNat 125

/-- An instruction of a compiled expression of the fragment. -/
inductive Inst where
  | bol
  | eol
  | any
  | lit (c : Char)
  deriving DecidableEq, Repr

/-- The characters with a special meaning in the syntax of `regexp`. -/
def regexMeta : List Char :=
  [chBackslash, '.', '+', '*', '?', '(', ')', '|', '[', ']', chOpenBrace,
   chCloseBrace, '^', '$']

def parseInst (c : Char) : Option Inst :=
  if c = '^' then some Inst.bol
  else if c = '$' then some Inst.eol
  else if c = '.' then some Inst.any
  else if c ∈ regexMeta then none
  else some (Inst.lit c)

def parsePattern : List Char → Option (List Inst)
  | [] => some []
  | c :: cs =>
    match parseInst c, parsePattern cs with
    | some i, some is => some (i :: is)
    | _, _ => none

/-- Does the expression match a leading part of the text?  `atStart` tells
whether the text starts at the beginning of the whole input. -/
def matchHere : Bool → List Inst → List Char → Bool
  | _, [], _ => true
  | atStart, Inst.bol :: is, s => atStart && matchHere atStart is s
  | atStart, Inst.eol :: is, s => s.isEmpty && matchHere atStart is s
  | _, Inst.any :: is, c :: s => (c != chNewline) && matchHere false is s
  | _, Inst.any :: _, [] => false
  | _, Inst.lit a :: is, c :: s => (a == c) && matchHere false is s
  | _, Inst.lit _ :: _, [] => false

/-- Does the expression match somewhere in the text? -/
def matchAnywhere : Bool → List Inst → List Char → Bool
  | atStart, is, [] => matchHere atStart is []
  | atStart, is, c :: s => matchHere atStart is (c :: s) || matchAnywhere false is s

/-- The package `regexp` on the fragment of its syntax made of literal
characters, `.`, `^` and `$`: `MatchString` reports whether the text contains
a match.  An expression with any other special character is outside the
fragment and is not compiled here; among those, `(` alone is also rejected by
`regexp` (missing closing parenthesis). -/
def goRegexp : RegexpLib where
  Compile := fun r =>
    (parsePattern r.data).map fun prog s => matchAnywhere true prog s.data

/-- The character references of the fragment. -/
def entities : List (List Char × Char) :=
  [(['&', 'l', 't', ';'], '<'), (['&', 'g', 't', ';'], '>'),
   (['&', 'a', 'm', 'p', ';'], '&'), (['&', 'q', 'u', 'o', 't', ';'], chQuote),
   (['&', '#', '3', '4', ';'], chQuote), (['&', '#', '3', '9', ';'], chApostrophe),
   (['&', '#', '1', '3', ';'], chReturn)]

/-- The character reference the text starts with, as the character it stands
for and its length. -/
def entityAt (s : List Char) : Option (Char × Nat) :=
  (entities.find? fun e => e.1.isPrefixOf s).map fun e => (e.2, e.1.length)

/-- Decode character references; `skip` characters of a reference already
decoded are still to be passed over. -/
def unescapeChars : Nat → List Char → List Char
  | _, [] => []
  | k + 1, _ :: cs => unescapeChars k cs
  | 0, c :: cs =>
    match entityAt (c :: cs) with
    | some e => e.1 :: unescapeChars (e.2 - 1) cs
    | none => c :: unescapeChars 0 cs

/-- The escaping of a character of a text token (`html.EscapeString` of
`golang.org/x/net/html`). -/
def escapeChar (c : Char) : List Char :=
  if c = '&' then ['&', 'a', 'm', 'p', ';']
  else if c = chApostrophe then ['&', '#', '3', '9', ';']
  else if c = '<' then ['&', 'l', 't', ';']
  else if c = '>' then ['&', 'g', 't', ';']
  else if c = chQuote then ['&', '#', '3', '4', ';']
  else if c = chReturn then ['&', '#', '1', '3', ';']
  else [c]

/-- Does a `<` followed by this text open markup (a tag, a comment, a
declaration)? -/
def opensMarkup : List Char → Bool
  | [] => false
  | c :: _ => c.isAlpha || c = '/' || c = '!' || c = '?'

/-- The number of characters to pass over after a carriage return: the line
feed that follows it, if there is one. -/
def lineFeedAfter : List Char → Nat
  | [] => 0
  | c :: _ => if c = chNewline then 1 else 0

/-- Drop markup and re-escape text: in markup everything through the next `>`
is dropped; in text, a carriage return, with the line feed that follows it,
becomes a line feed (the tokenizer converts newlines), a character reference
is decoded and the character escaped again, and any other character is
escaped. -/
def sanitizeChars : Bool → Nat → List Char → List Char
  | _, _, [] => []
  | true, _, c :: cs =>
    if c = '>' then sanitizeChars false 0 cs else sanitizeChars true 0 cs
  | false, k + 1, _ :: cs => sanitizeChars false k cs
  | false, 0, c :: cs =>
    if c = '<' ∧ opensMarkup cs = true then sanitizeChars true 0 cs
    else if c = chReturn then
      chNewline :: sanitizeChars false (lineFeedAfter cs) cs
    else
      match entityAt (c :: cs) with
      | some e => escapeChar e.1 ++ sanitizeChars false (e.2 - 1) cs
      | none => escapeChar c ++ sanitizeChars false 0 cs

/-- The packages `bluemonday` (strict policy) and `html` on a fragment of
HTML: markup is `<` followed by a letter, `/`, `!` or `?`, through the next
`>`; the character references are those of `entities`.  `Sanitize` returns
an input made of blanks unchanged, as the package does, and otherwise writes
each text token escaped, after the tokenizer converted its newlines and
decoded its character references. -/
def goHtml : HtmlLib where
  Sanitize := fun s =>
    if s.data.all Char.isWhitespace then s
    else String.mk (sanitizeChars false 0 s.data)
  UnescapeString := fun s => String.mk (unescapeChars 0 s.data)

/-- A node of a parsed template of the fragment. -/
inductive Node where
  | text (s : String)
  | subject
  | reSubject (r : String)
  | reBySubject (s : String)
  deriving DecidableEq, Repr

/-- Where the scanner of a template is: in text, in text after one opening
brace, in an action, in an action after one closing brace. -/
inductive ScanState where
  | text
  | textBrace
  | action
  | actionBrace
  deriving DecidableEq, Repr

def actionSubject : List Char := ".Header.Subject".data

def actionRe : List Char := "re .Header.Subject ".data ++ [chQuote]

def actionReOpen : List Char := "re ".data ++ [chQuote]

def actionReClose : List Char := [chQuote] ++ " .Header.Subject".data

/-- The node of an action, from the text between its delimiters. -/
def parseAction (a : List Char) : Except GoError Node :=
  if a = actionSubject then .ok Node.subject
  else if actionRe.isPrefixOf a ∧ a.getLast? = some chQuote
      ∧ actionRe.length < a.length then
    .ok (Node.reSubject (String.mk ((a.drop actionRe.length).dropLast)))
  else if actionReOpen.isPrefixOf a ∧ actionReClose.isSuffixOf a
      ∧ actionReOpen.length + actionReClose.length ≤ a.length then
    .ok (Node.reBySubject (String.mk
      ((a.drop actionReOpen.length).take
        (a.length - actionReOpen.length - actionReClose.length))))
  else .error (GoError.other ("template: message: " ++ String.mk a))

def textNode (acc : List Char) : List Node :=
  if acc = [] then [] else [Node.text (String.mk acc)]

/-- Scan a template: `acc` holds the characters of the text or of the action
being read. -/
def scanTemplate : ScanState → List Char → List Char → Except GoError (List Node)
  | .text, acc, [] => .ok (textNode acc)
  | .textBrace, acc, [] => .ok (textNode (acc ++ [chOpenBrace]))
  | _, _, [] => .error (GoError.other "template: message: unclosed action")
  | .text, acc, c :: cs =>
    if c = chOpenBrace then scanTemplate .textBrace acc cs
    else scanTemplate .text (acc ++ [c]) cs
  | .textBrace, acc, c :: cs =>
    if c = chOpenBrace then
      match scanTemplate .action [] cs with
      | .ok ns => .ok (textNode acc ++ ns)
      | .error e => .error e
    else scanTemplate .text (acc ++ [chOpenBrace, c]) cs
  | .action, acc, c :: cs =>
    if c = chCloseBrace then scanTemplate .actionBrace acc cs
    else scanTemplate .action (acc ++ [c]) cs
  | .actionBrace, acc, c :: cs =>
    if c = chCloseBrace then
      match parseAction acc, scanTemplate .text [] cs with
      | .ok n, .ok ns => .ok (n :: ns)
      | .error e, _ => .error e
      | _, .error e => .error e
    else scanTemplate .action (acc ++ [chCloseBrace, c]) cs

/-- Execute the nodes in order, appending to the buffer; the first error
stops the execution and leaves in the buffer what was written before it. -/
def execNodes (funcs : FuncMap) (m : Message) : List Node → String → String × Option GoError
  | [], buf => (buf, none)
  | Node.text s :: ns, buf => execNodes funcs m ns (buf ++ s)
  | Node.subject :: ns, buf => execNodes funcs m ns (buf ++ m.Header.Subject)
  | Node.reSubject r :: ns, buf =>
    match funcs.re m.Header.Subject r with
    | .ok b => execNodes funcs m ns (buf ++ toString b)
    | .error e => (buf, some e)
  | Node.reBySubject s :: ns, buf =>
    match funcs.re s m.Header.Subject with
    | .ok b => execNodes funcs m ns (buf ++ toString b)
    | .error e => (buf, some e)

/-- The package `text/template` on the fragment of its language made of text
and of the actions `.Header.Subject`, `re .Header.Subject "r"` and
`re "s" .Header.Subject`, each between double braces. -/
def goTemplate : TemplateLib where
  Parse := fun funcs text =>
    match scanTemplate .text [] text.data with
    | .ok ns => .ok fun m => execNodes funcs m ns ""
    | .error e => .error e

/-- An environment made of the stand-ins, with a standard output that writes
every buffer whole. -/
def goEnv : Env where
  now := "2024-01-01T00:00:00Z"
  regexp := goRegexp
  html := goHtml
  tmpl := goTemplate
  stdoutWrite := fun _ buf => (buf.length, none)

/-! ## Sample inputs -/

/-- A message with the given subject and one inline part. -/
def sampleReader (subject body : String) : MailReader where
  Header :=
    { Date := .ok ⟨"2024-01-01T09:00:00Z"⟩,
      AddressList := fun _ => .ok [⟨"<a@example.org>"⟩],
      Subject := .ok subject,
      Map := [("Subject", [subject])] }
  parts := [⟨PartHeader.inline ⟨"text/plain"⟩, ⟨body, none⟩⟩]
  last := GoError.ioEOF

def sampleMessage (subject body : String) : SimMessage :=
  ⟨⟨.ok (sampleReader subject body)⟩, false⟩

/-- A command-line state with the given template. -/
def sampleState (template : String) : stateT where
  imap := "localhost:993"
  mailbox := "INBOX"
  username := "user"
  password := "secret"
  template := template
  pollTimeout := 0
  verbose := 0
  noTLS := false

/-- The template `Subject: ` followed by the action `.Header.Subject`. -/
def subjectTemplate : String := "Subject: \x7b\x7b.Header.Subject\x7d\x7d;"

/-- The template `match: ` followed by the action `re "x" .Header.Subject`,
which uses the subject of the message as the regular expression. -/
def reTemplate : String :=
  "match: \x7b\x7bre \"x\" .Header.Subject\x7d\x7d;"

/-- A mailbox of two messages: the subject of the first is not a valid regular
expression, the subject of the second is. -/
def twoMessages : SimMailbox :=
  ⟨[sampleMessage "(" "one", sampleMessage "xy" "two"], none, none, none⟩

/-- The same mailbox on a server whose `Store` fails. -/
def twoMessagesStoreFails : SimMailbox :=
  { twoMessages with storeErr := some (GoError.other "imap: NO STORE failed") }

/-- A mailbox of one message on which `mail.CreateReader` fails. -/
def malformedMailbox : SimMailbox :=
  ⟨[⟨⟨.error (GoError.other "mail: malformed header")⟩, false⟩], none, none, none⟩

/-- A mailbox of one message whose part walk ends with an error other than
`io.EOF`. -/
def truncatedMailbox : SimMailbox :=
  ⟨[⟨⟨.ok { sampleReader "s" "b" with
            last := GoError.other "multipart: NextPart: unexpected EOF" }⟩,
      false⟩], none, none, none⟩

/-- An inline part whose read fails after three bytes. -/
def failingPart : Part :=
  ⟨PartHeader.inline ⟨"text/plain"⟩,
   ⟨"par", some (GoError.other "unexpected EOF")⟩⟩

/-- A mailbox of one message made of that part. -/
def failingReadMailbox : SimMailbox :=
  ⟨[⟨⟨.ok { sampleReader "s" "" with parts := [failingPart] }⟩, false⟩],
   none, none, none⟩

/-- A message with one attachment part named `x.pdf`. -/
def pdfReader : MailReader :=
  { sampleReader "report" "" with
    parts := [⟨PartHeader.attachment ⟨.ok "x.pdf"⟩,
               ⟨"%PDF-1.7 many bytes", none⟩⟩] }

/-- A template that writes `Subject: ` and then calls `re` with an invalid
regular expression. -/
def failingTemplate : String :=
  "Subject: \x7b\x7bre .Header.Subject \"(\"\x7d\x7d;"

/-- An environment whose standard output writes three bytes of a buffer and
fails. -/
def shortWriteEnv : Env :=
  { goEnv with
    stdoutWrite := fun _ _ =>
      (3, some (GoError.other "write /dev/stdout: broken pipe")) }

/-! ## Vocabulary of the statements -/

/-- The content `io.ReadAll` returned for an inline part. -/
def inlineContent (p : Part) : Option String :=
  match p.Header with
  | .inline _ => some (ioReadAll p.Body).1
  | _ => none

/-- The decoded filename of an attachment header, empty when the decoding
fails. -/
def decodedName (h : AttachmentHeader) : String :=
  match h.name with
  | .ok s => s
  | .error _ => ""

/-- The record of an attachment part. -/
def attachmentRecord (p : Part) : Option Attachment :=
  match p.Header with
  | .attachment h => some { Name := decodedName h, Content := "" }
  | _ => none

/-- The record `eventpoll` builds from a reader whose part walk ends at the
ordinary end of the parts. -/
def buildRecord (date : String) (mr : MailReader) : Message :=
  (walkParts mr.last mr.parts (headerRecord date mr) []).m

/-- An item parses structurally: it has no body (and is skipped), or
`mail.CreateReader` succeeds on its body and the part walk ends with
`io.EOF`. -/
def parsesStructurally (msg : ImapMessage) : Bool :=
  match msg.GetBody with
  | none => true
  | some r =>
    match mailCreateReader r with
    | .ok mr => decide (mr.last = GoError.ioEOF)
    | .error _ => false

/-- The record of an item that has a body `mail.CreateReader` accepts. -/
def recordOf (date : String) (msg : ImapMessage) : Option Message :=
  match msg.GetBody with
  | none => none
  | some r =>
    match mailCreateReader r with
    | .ok mr => some (buildRecord date mr)
    | .error _ => none

/-- The calls made on the connection between two states of a run. -/
def issued (before after : Effects) : List ConnOp :=
  after.ops.drop before.ops.length

/-- The sequence set `eventpoll` builds for a mailbox of `n` messages. -/
def batchSet (n : Nat) : SeqSet := SeqSet.AddRange ⟨[]⟩ 1 n

def fetchOp (n : Nat) : ConnOp := ConnOp.Fetch (batchSet n) [sectionFetchItem]

def storeOp (n : Nat) : ConnOp :=
  ConnOp.Store (batchSet n) addFlagsSilent [DeletedFlag]

/-- The effects once `eventpoll` has issued its `Fetch`. -/
def afterFetch (w : Effects) (n : Nat) : Effects :=
  { w with ops := w.ops ++ [fetchOp n],
           trace := w.trace ++ [Event.call (fetchOp n)] }

/-- The calls and the records handed to `output` between two states of a run,
in the order in which they happened. -/
def happened (before after : Effects) : List Event :=
  after.trace.drop before.trace.length

/-- What the `Fetch` of `eventpoll` returns on a mailbox of `n` messages. -/
def fetched {σ : Type} (cl : Client σ) (c : σ) (n : Nat) :
    σ × List ImapMessage × Option GoError :=
  cl.Fetch c (batchSet n) [sectionFetchItem]

/-- What the `Store` of `eventpoll` returns after that `Fetch`. -/
def stored {σ : Type} (cl : Client σ) (c : σ) (n : Nat) : σ × Option GoError :=
  cl.Store (fetched cl c n).1 (batchSet n) addFlagsSilent [DeletedFlag]

/-- The items of the messages numbered from `i` on, one per message. -/
def numbered : Nat → List SimMessage → List ImapMessage
  | _, [] => []
  | i, m :: ms => ⟨i, some m.body⟩ :: numbered (i + 1) ms

/-- Every case of the list is an update that is not a mailbox update. -/
def allOther (pre : List SelectCase) : Prop :=
  ∀ sc ∈ pre, sc = SelectCase.update Update.other

/-- What `strip` makes of a text in one pass, in the states of
`sanitizeChars`: markup is dropped, a carriage return becomes a line feed, a
character reference becomes the character it stands for, any other character
is kept. -/
def stripChars : Bool → Nat → List Char → List Char
  | _, _, [] => []
  | true, _, c :: cs =>
    if c = '>' then stripChars false 0 cs else stripChars true 0 cs
  | false, k + 1, _ :: cs => stripChars false k cs
  | false, 0, c :: cs =>
    if c = '<' ∧ opensMarkup cs = true then stripChars true 0 cs
    else if c = chReturn then
      chNewline :: stripChars false (lineFeedAfter cs) cs
    else
      match entityAt (c :: cs) with
      | some e => e.1 :: stripChars false (e.2 - 1) cs
      | none => c :: stripChars false 0 cs

/-- A text with no markup (no `<` followed by a letter, `/`, `!` or `?`), no
carriage return and no character reference. -/
def cleanChars : List Char → Bool
  | [] => true
  | c :: cs =>
    !(decide (c = '<') && opensMarkup cs) && !(decide (c = chReturn))
      && (entityAt (c :: cs)).isNone && cleanChars cs

/-- A text made of blanks only, or with no markup, no carriage return and no
character reference. -/
def cleanText (s : String) : Bool :=
  s.data.all Char.isWhitespace || cleanChars s.data

/-! ## Lemmas on the part loop -/

theorem walkParts_err (last : GoError) (ps : List Part) (m : Message)
    (log : List GoError) :
    (walkParts last ps m log).err
      = if last = GoError.ioEOF then none else some last := by
  induction ps generalizing m log with
  | nil => simp only [walkParts]; split <;> rfl
  | cons p ps ih =>
    simp only [walkParts]
    split <;> exact ih _ _

theorem attachment_record_eq (h : AttachmentHeader) :
    ({ Name := h.Filename.1, Content := "" } : Attachment)
      = { Name := decodedName h, Content := "" } := by
  unfold AttachmentHeader.Filename decodedName
  cases h.name <;> rfl

theorem walkParts_m (last : GoError) (ps : List Part) (m : Message)
    (log : List GoError) :
    (walkParts last ps m log).m
      = { m with Body := m.Body ++ ps.filterMap inlineContent,
                 Attachment := m.Attachment ++ ps.filterMap attachmentRecord } := by
  induction ps generalizing m log with
  | nil => simp only [walkParts]; split <;> simp
  | cons p ps ih =>
    simp only [walkParts]
    split
    · next h hp =>
      rw [ih]
      simp [List.filterMap_cons, inlineContent, attachmentRecord, hp]
    · next h hp =>
      rw [ih, attachment_record_eq]
      simp [List.filterMap_cons, inlineContent, attachmentRecord, hp]
    · next hp =>
      rw [ih]
      simp [List.filterMap_cons, inlineContent, attachmentRecord, hp]

theorem walkParts_m_log (last : GoError) (ps : List Part) (m : Message)
    (log : List GoError) :
    (walkParts last ps m log).m = (walkParts last ps m []).m := by
  rw [walkParts_m, walkParts_m]

/-! ## Lemmas on the loop over the fetched items -/

theorem processMessages_ops (env : Env) (state : stateT) (date : String)
    (items : List ImapMessage) (w : Effects) :
    (processMessages env state date items w).w.ops = w.ops := by
  induction items generalizing w with
  | nil => rfl
  | cons msg rest ih =>
    simp only [processMessages]
    split
    · exact ih w
    · split
      · rfl
      · split
        · rfl
        · rw [ih]

theorem processMessages_ok (env : Env) (state : stateT) (date : String)
    (items : List ImapMessage) (w : Effects)
    (h : ∀ msg ∈ items, parsesStructurally msg = true) :
    (processMessages env state date items w).err = none
      ∧ (processMessages env state date items w).w.rendered
          = w.rendered ++ items.filterMap (recordOf date) := by
  induction items generalizing w with
  | nil => simp [processMessages]
  | cons msg rest ih =>
    have hmsg := h msg (List.mem_cons_self _ _)
    have hrest : ∀ x ∈ rest, parsesStructurally x = true :=
      fun x hx => h x (List.mem_cons_of_mem _ hx)
    simp only [processMessages]
    split
    · next hb =>
      have hr : recordOf date msg = none := by simp [recordOf, hb]
      rw [List.filterMap_cons, hr]
      exact ih w hrest
    · next r hb =>
      split
      · next err hc => simp [parsesStructurally, hb, hc] at hmsg
      · next mr hc =>
        have hlast : mr.last = GoError.ioEOF := by
          simpa [parsesStructurally, hb, hc] using hmsg
        have hr : recordOf date msg = some (buildRecord date mr) := by
          simp [recordOf, hb, hc]
        have hwerr : (walkParts mr.last mr.parts (headerRecord date mr) w.log).err
            = none := by
          rw [walkParts_err, if_pos hlast]
        split
        · next err he => rw [hwerr] at he; cases he
        · have hm : (walkParts mr.last mr.parts (headerRecord date mr) w.log).m
              = buildRecord date mr := by
            unfold buildRecord
            exact walkParts_m_log _ _ _ _
          rw [List.filterMap_cons, hr]
          obtain ⟨h1, h2⟩ := ih
            { w with
              rendered := w.rendered
                ++ [(walkParts mr.last mr.parts (headerRecord date mr) w.log).m],
              stdout := (output env state
                (walkParts mr.last mr.parts (headerRecord date mr) w.log).m
                w.stdout).stdout,
              log := logErr
                (walkParts mr.last mr.parts (headerRecord date mr) w.log).log
                (output env state
                  (walkParts mr.last mr.parts (headerRecord date mr) w.log).m
                  w.stdout).err,
              trace := w.trace ++ [Event.render
                (walkParts mr.last mr.parts (headerRecord date mr) w.log).m] } hrest
          refine ⟨h1, ?_⟩
          rw [h2, hm]
          simp

theorem processMessages_err (env : Env) (state : stateT) (date : String)
    (items : List ImapMessage) (w : Effects) (e : GoError)
    (h : (processMessages env state date items w).err = some e) :
    ∃ msg ∈ items, parsesStructurally msg = false := by
  by_contra hno
  have hall : ∀ msg ∈ items, parsesStructurally msg = true := by
    intro msg hmem
    cases hp : parsesStructurally msg with
    | true => rfl
    | false => exact absurd ⟨msg, hmem, hp⟩ hno
  rw [(processMessages_ok env state date items w hall).1] at h
  cases h

/-! ## Lemmas on `eventpoll` -/

theorem batchSet_eq (n : Nat) (h : 1 ≤ n) : batchSet n = ⟨[⟨1, n⟩]⟩ := by
  unfold batchSet SeqSet.AddRange
  have h1 : ¬ ((n < 1 ∧ n ≠ 0) ∨ 1 = 0) := by omega
  rw [if_neg h1]
  rfl

theorem issued_append (w w' : Effects) (l : List ConnOp)
    (h : w'.ops = w.ops ++ l) : issued w w' = l := by
  unfold issued
  rw [h, List.drop_left]

/-- The function `eventpoll` on a mailbox that is not empty, in terms of the
results of the calls it makes. -/
theorem eventpoll_ops_err {σ : Type} (cl : Client σ) (env : Env) (state : stateT)
    (c : σ) (mbox : MailboxStatus) (w : Effects) (hN : 1 ≤ mbox.Messages) :
    let f := cl.Fetch c (batchSet mbox.Messages) [sectionFetchItem]
    let l := processMessages env state env.now f.2.1
      (afterFetch w mbox.Messages)
    let s := cl.Store f.1 (batchSet mbox.Messages) addFlagsSilent [DeletedFlag]
    let r := eventpoll cl env state c mbox w
    r.w.rendered = l.w.rendered ∧
    (match l.err, f.2.2, s.2 with
     | some e, _, _ =>
       issued w r.w = [fetchOp mbox.Messages] ∧ r.err = some e ∧ r.conn = f.1
     | none, some e, _ =>
       issued w r.w = [fetchOp mbox.Messages] ∧ r.err = some e ∧ r.conn = f.1
     | none, none, some e =>
       issued w r.w = [fetchOp mbox.Messages, storeOp mbox.Messages]
         ∧ r.err = some e ∧ r.conn = s.1
     | none, none, none =>
       issued w r.w
           = [fetchOp mbox.Messages, storeOp mbox.Messages, ConnOp.Expunge]
         ∧ r.err = (cl.Expunge s.1).2 ∧ r.conn = (cl.Expunge s.1).1) := by
  intro f l s r
  have h0 : ¬ mbox.Messages = 0 := by omega
  have hlops : l.w.ops = w.ops ++ [fetchOp mbox.Messages] :=
    processMessages_ops _ _ _ _ _
  have hr : r = eventpoll cl env state c mbox w := rfl
  unfold eventpoll at hr
  simp only [if_neg h0] at hr
  change r = (match l.err with
    | some err => (⟨f.1, l.w, some err⟩ : PollResult σ)
    | none =>
      match f.2.2 with
      | some err => ⟨f.1, l.w, some err⟩
      | none =>
        match s.2 with
        | some err =>
          ⟨s.1, { l.w with
            ops := l.w.ops ++ [storeOp mbox.Messages],
            trace := l.w.trace ++ [Event.call (storeOp mbox.Messages)] }, some err⟩
        | none =>
          ⟨(cl.Expunge s.1).1,
            { l.w with
              ops := l.w.ops ++ [storeOp mbox.Messages] ++ [ConnOp.Expunge],
              trace := l.w.trace ++ [Event.call (storeOp mbox.Messages)]
                ++ [Event.call ConnOp.Expunge] },
            (cl.Expunge s.1).2⟩) at hr
  cases hl : l.err with
  | some e =>
    simp only [hl] at hr ⊢
    rw [hr]
    exact ⟨rfl, issued_append _ _ _ hlops, rfl, rfl⟩
  | none =>
    cases hf : f.2.2 with
    | some e =>
      simp only [hl, hf] at hr ⊢
      rw [hr]
      exact ⟨rfl, issued_append _ _ _ hlops, rfl, rfl⟩
    | none =>
      cases hs : s.2 with
      | some e =>
        simp only [hl, hf, hs] at hr ⊢
        rw [hr]
        refine ⟨rfl, issued_append _ _ _ ?_, rfl, rfl⟩
        simp [hlops]
      | none =>
        simp only [hl, hf, hs] at hr ⊢
        rw [hr]
        refine ⟨rfl, issued_append _ _ _ ?_, rfl, rfl⟩
        simp [hlops]

theorem happened_append (w w' : Effects) (l : List Event)
    (h : w'.trace = w.trace ++ l) : happened w w' = l := by
  unfold happened
  rw [h, List.drop_left]

theorem processMessages_trace_ok (env : Env) (state : stateT) (date : String)
    (items : List ImapMessage) (w : Effects)
    (h : ∀ msg ∈ items, parsesStructurally msg = true) :
    (processMessages env state date items w).w.trace
      = w.trace ++ (items.filterMap (recordOf date)).map Event.render := by
  induction items generalizing w with
  | nil => simp [processMessages]
  | cons msg rest ih =>
    have hmsg := h msg (List.mem_cons_self _ _)
    have hrest : ∀ x ∈ rest, parsesStructurally x = true :=
      fun x hx => h x (List.mem_cons_of_mem _ hx)
    simp only [processMessages]
    split
    · next hb =>
      have hr : recordOf date msg = none := by simp [recordOf, hb]
      rw [List.filterMap_cons, hr]
      exact ih w hrest
    · next r hb =>
      split
      · next err hc => simp [parsesStructurally, hb, hc] at hmsg
      · next mr hc =>
        have hlast : mr.last = GoError.ioEOF := by
          simpa [parsesStructurally, hb, hc] using hmsg
        have hr : recordOf date msg = some (buildRecord date mr) := by
          simp [recordOf, hb, hc]
        have hwerr : (walkParts mr.last mr.parts (headerRecord date mr) w.log).err
            = none := by
          rw [walkParts_err, if_pos hlast]
        split
        · next err he => rw [hwerr] at he; cases he
        · have hm : (walkParts mr.last mr.parts (headerRecord date mr) w.log).m
              = buildRecord date mr := by
            unfold buildRecord
            exact walkParts_m_log _ _ _ _
          rw [List.filterMap_cons, hr, ih _ hrest, hm]
          simp

/-- The trace of `eventpoll` on a mailbox that is not empty, in terms of the
trace of its loop. -/
theorem eventpoll_trace {σ : Type} (cl : Client σ) (env : Env) (state : stateT)
    (c : σ) (mbox : MailboxStatus) (w : Effects) (hN : 1 ≤ mbox.Messages) :
    let f := cl.Fetch c (batchSet mbox.Messages) [sectionFetchItem]
    let l := processMessages env state env.now f.2.1 (afterFetch w mbox.Messages)
    let s := cl.Store f.1 (batchSet mbox.Messages) addFlagsSilent [DeletedFlag]
    let r := eventpoll cl env state c mbox w
    (match l.err, f.2.2, s.2 with
     | some _, _, _ => r.w.trace = l.w.trace
     | none, some _, _ => r.w.trace = l.w.trace
     | none, none, some _ =>
       r.w.trace = l.w.trace ++ [Event.call (storeOp mbox.Messages)]
     | none, none, none =>
       r.w.trace = l.w.trace ++ [Event.call (storeOp mbox.Messages)]
         ++ [Event.call ConnOp.Expunge]) := by
  intro f l s r
  have h0 : ¬ mbox.Messages = 0 := by omega
  have hr : r = eventpoll cl env state c mbox w := rfl
  unfold eventpoll at hr
  simp only [if_neg h0] at hr
  change r = (match l.err with
    | some err => (⟨f.1, l.w, some err⟩ : PollResult σ)
    | none =>
      match f.2.2 with
      | some err => ⟨f.1, l.w, some err⟩
      | none =>
        match s.2 with
        | some err =>
          ⟨s.1, { l.w with
            ops := l.w.ops ++ [storeOp mbox.Messages],
            trace := l.w.trace ++ [Event.call (storeOp mbox.Messages)] }, some err⟩
        | none =>
          ⟨(cl.Expunge s.1).1,
            { l.w with
              ops := l.w.ops ++ [storeOp mbox.Messages] ++ [ConnOp.Expunge],
              trace := l.w.trace ++ [Event.call (storeOp mbox.Messages)]
                ++ [Event.call ConnOp.Expunge] },
            (cl.Expunge s.1).2⟩) at hr
  cases hl : l.err with
  | some e =>
    simp only [hl] at hr ⊢
    rw [hr]
  | none =>
    cases hf : f.2.2 with
    | some e =>
      simp only [hl, hf] at hr ⊢
      rw [hr]
    | none =>
      cases hs : s.2 with
      | some e =>
        simp only [hl, hf, hs] at hr ⊢
        rw [hr]
      | none =>
        simp only [hl, hf, hs] at hr ⊢
        rw [hr]

/-! ## Lemmas on the simulated mailbox -/

theorem contains_batch (n j : Nat) (h1 : 1 ≤ j) (h2 : j ≤ n) :
    (⟨[⟨1, n⟩]⟩ : SeqSet).Contains j = true := by
  simp [SeqSet.Contains, h1, h2]

theorem simFetchItems_all (s : SeqSet) (i : Nat) (ms : List SimMessage)
    (h : ∀ j, i ≤ j → j < i + ms.length → s.Contains j = true) :
    simFetchItems s i ms = numbered i ms := by
  induction ms generalizing i with
  | nil => rfl
  | cons m ms ih =>
    have hi : s.Contains i = true := h i (Nat.le_refl _) (by simp)
    simp only [simFetchItems, numbered, hi, if_true]
    rw [ih]
    intro j hj1 hj2
    exact h j (by omega) (by simp only [List.length_cons]; omega)

theorem numbered_seqNum (i : Nat) (ms : List SimMessage) :
    (numbered i ms).map ImapMessage.SeqNum = List.range' i ms.length := by
  induction ms generalizing i with
  | nil => rfl
  | cons m ms ih => simp [numbered, List.range', ih]

theorem numbered_records (date : String) (i : Nat) (ms : List SimMessage)
    (mrs : List MailReader)
    (h : ms.map (fun m => m.body.reader) = mrs.map Except.ok) :
    (numbered i ms).filterMap (recordOf date) = mrs.map (buildRecord date) := by
  induction ms generalizing i mrs with
  | nil =>
    cases mrs with
    | nil => rfl
    | cons a l => simp at h
  | cons m ms ih =>
    cases mrs with
    | nil => simp at h
    | cons mr mrs =>
      simp only [List.map_cons, List.cons.injEq] at h
      have hr : recordOf date ⟨i, some m.body⟩ = some (buildRecord date mr) := by
        simp [recordOf, ImapMessage.GetBody, mailCreateReader, h.1]
      simp only [numbered, List.filterMap_cons, hr, List.map_cons]
      rw [ih (i + 1) mrs h.2]

theorem numbered_parse (i : Nat) (ms : List SimMessage) (mrs : List MailReader)
    (h : ms.map (fun m => m.body.reader) = mrs.map Except.ok)
    (hwf : ∀ mr ∈ mrs, mr.last = GoError.ioEOF) :
    ∀ msg ∈ numbered i ms, parsesStructurally msg = true := by
  induction ms generalizing i mrs with
  | nil => intro msg hmsg; simp [numbered] at hmsg
  | cons m ms ih =>
    cases mrs with
    | nil => simp at h
    | cons mr mrs =>
      simp only [List.map_cons, List.cons.injEq] at h
      intro msg hmsg
      simp only [numbered, List.mem_cons] at hmsg
      rcases hmsg with hm | hm
      · subst hm
        simp [parsesStructurally, ImapMessage.GetBody, mailCreateReader, h.1,
          hwf mr (List.mem_cons_self _ _)]
      · exact ih (i + 1) mrs h.2
          (fun x hx => hwf x (List.mem_cons_of_mem _ hx)) msg hm

theorem simMarkDeleted_all (s : SeqSet) (i : Nat) (ms : List SimMessage)
    (h : ∀ j, i ≤ j → j < i + ms.length → s.Contains j = true) :
    (simMarkDeleted s i ms).filter (fun m => !m.deleted) = [] := by
  induction ms generalizing i with
  | nil => rfl
  | cons m ms ih =>
    have hi : s.Contains i = true := h i (Nat.le_refl _) (by simp)
    simp only [simMarkDeleted, hi, if_true]
    rw [List.filter_cons]
    simp only [Bool.not_true, Bool.false_eq_true, if_false]
    apply ih
    intro j hj1 hj2
    exact h j (by omega) (by simp only [List.length_cons]; omega)

theorem batch_covers (n i : Nat) (ms : List SimMessage) (h1 : 1 ≤ i)
    (hlen : i + ms.length ≤ n + 1) :
    ∀ j, i ≤ j → j < i + ms.length → (⟨[⟨1, n⟩]⟩ : SeqSet).Contains j = true :=
  fun j hj1 hj2 => contains_batch n j (by omega) (by omega)

/-! ## The claims on `eventpoll` -/

/-- C4: on a mailbox state whose message count is 0, `eventpoll` returns `nil`
at once: the connection is unchanged and no `Fetch`, `Store` or `Expunge` (no
call at all) was made on it, and nothing was rendered. -/
theorem eventpoll_empty_mailbox {σ : Type} (cl : Client σ) (env : Env)
    (state : stateT) (c : σ) (mbox : MailboxStatus) (w : Effects)
    (h : mbox.Messages = 0) :
    (eventpoll cl env state c mbox w).err = none
      ∧ (eventpoll cl env state c mbox w).conn = c
      ∧ (eventpoll cl env state c mbox w).w = w
      ∧ issued w (eventpoll cl env state c mbox w).w = [] := by
  unfold eventpoll
  simp [h, issued]

theorem eventpoll_empty_mailbox_witness :
    (⟨"INBOX", 0⟩ : MailboxStatus).Messages = 0
      ∧ (eventpoll simClient goEnv (sampleState subjectTemplate) twoMessages
          ⟨"INBOX", 0⟩ Effects.empty).err = none
      ∧ (eventpoll simClient goEnv (sampleState subjectTemplate) twoMessages
          ⟨"INBOX", 0⟩ Effects.empty).w = Effects.empty :=
  ⟨rfl,
   (eventpoll_empty_mailbox simClient goEnv (sampleState subjectTemplate)
      twoMessages ⟨"INBOX", 0⟩ Effects.empty rfl).1,
   (eventpoll_empty_mailbox simClient goEnv (sampleState subjectTemplate)
      twoMessages ⟨"INBOX", 0⟩ Effects.empty rfl).2.2.1⟩

/-- C1, as stated, fails: on a batch of two items that both parse, fetched
without error, from a server whose `Store` fails, `eventpoll` issues the
`Store` on the range 1:2 but no `Expunge`. -/
theorem eventpoll_store_failure_no_expunge :
    (fetched simClient twoMessagesStoreFails 2).2.2 = none
      ∧ (∀ msg ∈ (fetched simClient twoMessagesStoreFails 2).2.1,
          parsesStructurally msg = true)
      ∧ ConnOp.Expunge ∉ issued Effects.empty
          (eventpoll simClient goEnv (sampleState reTemplate)
            twoMessagesStoreFails ⟨"INBOX", 2⟩ Effects.empty).w := by
  refine ⟨rfl, ?_, ?_⟩
  · intro msg hmsg
    simp [fetched, simClient, simFetchItems, twoMessagesStoreFails, twoMessages,
      batchSet, SeqSet.AddRange, SeqSet.Contains] at hmsg
    rcases hmsg with h | h <;> subst h <;> rfl
  · decide

/-- C1, amended: when the mailbox count is `N ≥ 1`, the fetch completes without
error and every fetched item parses structurally, then, whatever the template
engine, the packages and standard output do (so whatever `output` returns for
each message), `eventpoll` issues the `Fetch`, then extracts every item with a
body and hands it to `output`, in order, and only then issues the
deleted-flag `Store` on the range `1:N`; when the `Store` fails its error is
returned and nothing more is issued; when it succeeds `Expunge` is issued
next and its result is returned. -/
theorem eventpoll_cleanup_whatever_output_returns {σ : Type} (cl : Client σ)
    (env : Env) (state : stateT) (c : σ) (mbox : MailboxStatus) (w : Effects)
    (hN : 1 ≤ mbox.Messages)
    (hfetch : (fetched cl c mbox.Messages).2.2 = none)
    (hparse : ∀ msg ∈ (fetched cl c mbox.Messages).2.1,
      parsesStructurally msg = true) :
    (eventpoll cl env state c mbox w).w.rendered
        = w.rendered
          ++ (fetched cl c mbox.Messages).2.1.filterMap (recordOf env.now)
      ∧ (∀ e, (stored cl c mbox.Messages).2 = some e →
          issued w (eventpoll cl env state c mbox w).w
              = [ConnOp.Fetch ⟨[⟨1, mbox.Messages⟩]⟩ [sectionFetchItem],
                 ConnOp.Store ⟨[⟨1, mbox.Messages⟩]⟩ addFlagsSilent [DeletedFlag]]
            ∧ (eventpoll cl env state c mbox w).err = some e
            ∧ happened w (eventpoll cl env state c mbox w).w
              = Event.call (ConnOp.Fetch ⟨[⟨1, mbox.Messages⟩]⟩ [sectionFetchItem])
                :: (((fetched cl c mbox.Messages).2.1.filterMap
                      (recordOf env.now)).map Event.render
                  ++ [Event.call (ConnOp.Store ⟨[⟨1, mbox.Messages⟩]⟩
                        addFlagsSilent [DeletedFlag])]))
      ∧ ((stored cl c mbox.Messages).2 = none →
          issued w (eventpoll cl env state c mbox w).w
              = [ConnOp.Fetch ⟨[⟨1, mbox.Messages⟩]⟩ [sectionFetchItem],
                 ConnOp.Store ⟨[⟨1, mbox.Messages⟩]⟩ addFlagsSilent [DeletedFlag],
                 ConnOp.Expunge]
            ∧ (eventpoll cl env state c mbox w).err
                = (cl.Expunge (stored cl c mbox.Messages).1).2
            ∧ happened w (eventpoll cl env state c mbox w).w
              = Event.call (ConnOp.Fetch ⟨[⟨1, mbox.Messages⟩]⟩ [sectionFetchItem])
                :: (((fetched cl c mbox.Messages).2.1.filterMap
                      (recordOf env.now)).map Event.render
                  ++ [Event.call (ConnOp.Store ⟨[⟨1, mbox.Messages⟩]⟩
                        addFlagsSilent [DeletedFlag]),
                      Event.call ConnOp.Expunge])) := by
  have key := eventpoll_ops_err cl env state c mbox w hN
  have tkey := eventpoll_trace cl env state c mbox w hN
  simp only at key tkey
  have hok := processMessages_ok env state env.now (fetched cl c mbox.Messages).2.1
    (afterFetch w mbox.Messages) hparse
  have htr := processMessages_trace_ok env state env.now
    (fetched cl c mbox.Messages).2.1 (afterFetch w mbox.Messages) hparse
  unfold fetched at hok hfetch htr
  rw [hok.1, hfetch] at key tkey
  have hset := batchSet_eq mbox.Messages hN
  refine ⟨?_, ?_, ?_⟩
  · rw [key.1, hok.2]; rfl
  · intro e he
    unfold stored fetched at he
    rw [he] at key tkey
    have k2 := key.2
    simp only [fetchOp, storeOp, hset] at k2
    refine ⟨k2.1, k2.2.1, happened_append _ _ _ ?_⟩
    have t2 : (eventpoll cl env state c mbox w).w.trace = _ := tkey
    rw [t2, htr]
    simp [afterFetch, fetchOp, storeOp, fetched, hset]
  · intro he
    unfold stored fetched at he
    rw [he] at key tkey
    have k2 := key.2.1
    simp only [fetchOp, storeOp, hset] at k2
    refine ⟨k2, key.2.2.1, happened_append _ _ _ ?_⟩
    have t2 : (eventpoll cl env state c mbox w).w.trace = _ := tkey
    rw [t2, htr]
    simp [afterFetch, fetchOp, storeOp, fetched, hset]

theorem twoMessages_parse :
    ∀ msg ∈ (fetched simClient twoMessages 2).2.1,
      parsesStructurally msg = true := by
  have h : (fetched simClient twoMessages 2).2.1 = numbered 1 twoMessages.msgs :=
    rfl
  rw [h]
  exact numbered_parse 1 twoMessages.msgs
    [sampleReader "(" "one", sampleReader "xy" "two"] rfl
    (by intro mr hmr; simp at hmr; rcases hmr with h | h <;> subst h <;> rfl)

theorem eventpoll_cleanup_whatever_output_returns_witness :
    1 ≤ (⟨"INBOX", 2⟩ : MailboxStatus).Messages
      ∧ (fetched simClient twoMessages 2).2.2 = none
      ∧ (∀ msg ∈ (fetched simClient twoMessages 2).2.1,
          parsesStructurally msg = true)
      ∧ (output goEnv (sampleState reTemplate)
            (buildRecord goEnv.now (sampleReader "(" "one")) []).err
          = some (GoError.other "regexp: Compile(()")
      ∧ (eventpoll simClient goEnv (sampleState reTemplate) twoMessages
            ⟨"INBOX", 2⟩ Effects.empty).w.rendered
          = [buildRecord goEnv.now (sampleReader "(" "one"),
             buildRecord goEnv.now (sampleReader "xy" "two")]
      ∧ issued Effects.empty
            (eventpoll simClient goEnv (sampleState reTemplate) twoMessages
              ⟨"INBOX", 2⟩ Effects.empty).w
          = [ConnOp.Fetch ⟨[⟨1, 2⟩]⟩ [sectionFetchItem],
             ConnOp.Store ⟨[⟨1, 2⟩]⟩ addFlagsSilent [DeletedFlag],
             ConnOp.Expunge]
      ∧ (eventpoll simClient goEnv (sampleState reTemplate) twoMessages
            ⟨"INBOX", 2⟩ Effects.empty).err = none
      ∧ happened Effects.empty
            (eventpoll simClient goEnv (sampleState reTemplate) twoMessages
              ⟨"INBOX", 2⟩ Effects.empty).w
          = [Event.call (ConnOp.Fetch ⟨[⟨1, 2⟩]⟩ [sectionFetchItem]),
             Event.render (buildRecord goEnv.now (sampleReader "(" "one")),
             Event.render (buildRecord goEnv.now (sampleReader "xy" "two")),
             Event.call (ConnOp.Store ⟨[⟨1, 2⟩]⟩ addFlagsSilent [DeletedFlag]),
             Event.call ConnOp.Expunge] :=
  ⟨by decide, rfl, twoMessages_parse, rfl,
   (eventpoll_cleanup_whatever_output_returns simClient goEnv
      (sampleState reTemplate) twoMessages ⟨"INBOX", 2⟩ Effects.empty
      (by decide) rfl twoMessages_parse).1,
   ((eventpoll_cleanup_whatever_output_returns simClient goEnv
      (sampleState reTemplate) twoMessages ⟨"INBOX", 2⟩ Effects.empty
      (by decide) rfl twoMessages_parse).2.2 rfl).1,
   ((eventpoll_cleanup_whatever_output_returns simClient goEnv
      (sampleState reTemplate) twoMessages ⟨"INBOX", 2⟩ Effects.empty
      (by decide) rfl twoMessages_parse).2.2 rfl).2.1,
   ((eventpoll_cleanup_whatever_output_returns simClient goEnv
      (sampleState reTemplate) twoMessages ⟨"INBOX", 2⟩ Effects.empty
      (by decide) rfl twoMessages_parse).2.2 rfl).2.2⟩

/-- C2, as stated, fails: on a mailbox of one message that `mail.CreateReader`
rejects, and on one whose part walk ends with an error other than `io.EOF`,
`eventpoll` returns without having issued the `Store` on `1:1`, although the
fetch completed with a `nil` error. -/
theorem eventpoll_parse_failure_skips_cleanup :
    ¬ (ConnOp.Store ⟨[⟨1, 1⟩]⟩ addFlagsSilent [DeletedFlag]
          ∉ issued Effects.empty
              (eventpoll simClient goEnv (sampleState subjectTemplate)
                malformedMailbox ⟨"INBOX", 1⟩ Effects.empty).w
        → (fetched simClient malformedMailbox 1).2.2 ≠ none)
      ∧ ¬ (ConnOp.Store ⟨[⟨1, 1⟩]⟩ addFlagsSilent [DeletedFlag]
          ∉ issued Effects.empty
              (eventpoll simClient goEnv (sampleState subjectTemplate)
                truncatedMailbox ⟨"INBOX", 1⟩ Effects.empty).w
        → (fetched simClient truncatedMailbox 1).2.2 ≠ none) := by
  constructor <;> decide

theorem parse_failure_cases (msg : ImapMessage)
    (h : parsesStructurally msg = false) :
    ∃ r, msg.GetBody = some r
      ∧ ((∃ e, mailCreateReader r = .error e)
        ∨ ∃ mr, mailCreateReader r = .ok mr ∧ mr.last ≠ GoError.ioEOF) := by
  unfold parsesStructurally at h
  cases hb : msg.GetBody with
  | none => simp [hb] at h
  | some r =>
    refine ⟨r, rfl, ?_⟩
    cases hc : mailCreateReader r with
    | error e => exact Or.inl ⟨e, rfl⟩
    | ok mr =>
      refine Or.inr ⟨mr, rfl, ?_⟩
      simpa [hb, hc] using h

/-- C2, amended: when the mailbox count is `N ≥ 1` and `eventpoll` returns
without having issued the `Store` on `1:N`, then the fetch completion signal
carried a non-nil error, or some fetched item has a body on which
`mail.CreateReader` failed or whose part walk ended with an error other than
`io.EOF`. -/
theorem eventpoll_cleanup_skipped_only_on_fetch_or_parse_failure {σ : Type}
    (cl : Client σ) (env : Env) (state : stateT) (c : σ) (mbox : MailboxStatus)
    (w : Effects) (hN : 1 ≤ mbox.Messages)
    (hskip : ConnOp.Store ⟨[⟨1, mbox.Messages⟩]⟩ addFlagsSilent [DeletedFlag]
      ∉ issued w (eventpoll cl env state c mbox w).w) :
    (fetched cl c mbox.Messages).2.2 ≠ none
      ∨ ∃ msg ∈ (fetched cl c mbox.Messages).2.1, ∃ r, msg.GetBody = some r
          ∧ ((∃ e, mailCreateReader r = .error e)
            ∨ ∃ mr, mailCreateReader r = .ok mr ∧ mr.last ≠ GoError.ioEOF) := by
  have key := (eventpoll_ops_err cl env state c mbox w hN).2
  simp only at key
  have hset := batchSet_eq mbox.Messages hN
  cases hl : (processMessages env state env.now
      (cl.Fetch c (batchSet mbox.Messages) [sectionFetchItem]).2.1
      (afterFetch w mbox.Messages)).err with
  | some e =>
    obtain ⟨msg, hmem, hp⟩ := processMessages_err _ _ _ _ _ e hl
    exact Or.inr ⟨msg, hmem, parse_failure_cases msg hp⟩
  | none =>
    cases hf : (cl.Fetch c (batchSet mbox.Messages) [sectionFetchItem]).2.2 with
    | some e =>
      left
      unfold fetched
      rw [hf]
      simp
    | none =>
      exfalso
      apply hskip
      rw [hl, hf] at key
      cases hs : (cl.Store
          (cl.Fetch c (batchSet mbox.Messages) [sectionFetchItem]).1
          (batchSet mbox.Messages) addFlagsSilent [DeletedFlag]).2 with
      | some e =>
        rw [hs] at key
        rw [key.1]
        simp [storeOp, hset]
      | none =>
        rw [hs] at key
        rw [key.1]
        simp [storeOp, hset]

theorem eventpoll_cleanup_skipped_only_on_fetch_or_parse_failure_witness :
    1 ≤ (⟨"INBOX", 1⟩ : MailboxStatus).Messages
      ∧ ConnOp.Store ⟨[⟨1, 1⟩]⟩ addFlagsSilent [DeletedFlag]
          ∉ issued Effects.empty
              (eventpoll simClient goEnv (sampleState subjectTemplate)
                malformedMailbox ⟨"INBOX", 1⟩ Effects.empty).w
      ∧ ((fetched simClient malformedMailbox 1).2.2 ≠ none
        ∨ ∃ msg ∈ (fetched simClient malformedMailbox 1).2.1,
            ∃ r, msg.GetBody = some r
              ∧ ((∃ e, mailCreateReader r = .error e)
                ∨ ∃ mr, mailCreateReader r = .ok mr
                    ∧ mr.last ≠ GoError.ioEOF)) :=
  ⟨by decide, by decide,
   eventpoll_cleanup_skipped_only_on_fetch_or_parse_failure simClient goEnv
     (sampleState subjectTemplate) malformedMailbox ⟨"INBOX", 1⟩ Effects.empty
     (by decide) (by decide)⟩

/-- C3: over the simulated server holding `N ≥ 1` messages, each with a body
that parses (reader `mrs[i]` for sequence number `i + 1`, its part walk ending
with `io.EOF`), `eventpoll` on a mailbox state of count `N` first issues one
`Fetch`, of the sequence range `1:N`, and no other `Fetch`; the items delivered
carry the sequence numbers `1, ..., N` in this order; exactly `N` records are
handed to `output`, the record of message `1` first and that of message `N`
last; and when `eventpoll` returns `nil` the calls issued are that `Fetch`,
the deleted-flag `Store` on `1:N` and `Expunge`, and the simulated mailbox
holds no message. -/
theorem eventpoll_sim_batch (env : Env) (state : stateT) (mb : SimMailbox)
    (mbox : MailboxStatus) (w : Effects) (mrs : List MailReader)
    (hN : 1 ≤ mbox.Messages) (hcount : mb.msgs.length = mbox.Messages)
    (hbody : mb.msgs.map (fun m => m.body.reader) = mrs.map Except.ok)
    (hwf : ∀ mr ∈ mrs, mr.last = GoError.ioEOF) :
    (∃ rest, issued w (eventpoll simClient env state mb mbox w).w
          = ConnOp.Fetch ⟨[⟨1, mbox.Messages⟩]⟩ [sectionFetchItem] :: rest
        ∧ ∀ op ∈ rest,
            op = ConnOp.Store ⟨[⟨1, mbox.Messages⟩]⟩ addFlagsSilent [DeletedFlag]
              ∨ op = ConnOp.Expunge)
      ∧ (fetched simClient mb mbox.Messages).2.1.map ImapMessage.SeqNum
          = List.range' 1 mbox.Messages
      ∧ (eventpoll simClient env state mb mbox w).w.rendered
          = w.rendered ++ mrs.map (buildRecord env.now)
      ∧ (mrs.map (buildRecord env.now)).length = mbox.Messages
      ∧ ((eventpoll simClient env state mb mbox w).err = none →
          issued w (eventpoll simClient env state mb mbox w).w
              = [ConnOp.Fetch ⟨[⟨1, mbox.Messages⟩]⟩ [sectionFetchItem],
                 ConnOp.Store ⟨[⟨1, mbox.Messages⟩]⟩ addFlagsSilent [DeletedFlag],
                 ConnOp.Expunge]
            ∧ (eventpoll simClient env state mb mbox w).conn.msgs.length = 0) := by
  have hset := batchSet_eq mbox.Messages hN
  have hcover := batch_covers mbox.Messages 1 mb.msgs (Nat.le_refl 1) (by omega)
  have hitems : (fetched simClient mb mbox.Messages).2.1 = numbered 1 mb.msgs := by
    simp only [fetched, simClient, hset]
    exact simFetchItems_all _ 1 mb.msgs hcover
  have hparse : ∀ msg ∈ (fetched simClient mb mbox.Messages).2.1,
      parsesStructurally msg = true := by
    rw [hitems]
    exact numbered_parse 1 mb.msgs mrs hbody hwf
  have hlen : mrs.length = mbox.Messages := by
    have := congrArg List.length hbody
    simp only [List.length_map] at this
    omega
  have key := eventpoll_ops_err simClient env state mb mbox w hN
  simp only at key
  have hok := processMessages_ok env state env.now
    (fetched simClient mb mbox.Messages).2.1
    (afterFetch w mbox.Messages) hparse
  have hrend : (eventpoll simClient env state mb mbox w).w.rendered
      = w.rendered ++ mrs.map (buildRecord env.now) := by
    rw [key.1]
    have h2 := hok.2
    unfold fetched at h2 hitems
    rw [h2, hitems, numbered_records env.now 1 mb.msgs mrs hbody]
    rfl
  have hl := hok.1
  unfold fetched at hl
  have k2 := key.2
  rw [hl] at k2
  refine ⟨?_, ?_, hrend, by simp [hlen], ?_⟩
  · cases hf : mb.fetchErr with
    | some e =>
      have hf2 : (simClient.Fetch mb (batchSet mbox.Messages)
          [sectionFetchItem]).2.2 = some e := hf
      rw [hf2] at k2
      refine ⟨[], ?_, by simp⟩
      rw [k2.1]; simp [fetchOp, hset]
    | none =>
      have hf2 : (simClient.Fetch mb (batchSet mbox.Messages)
          [sectionFetchItem]).2.2 = none := hf
      rw [hf2] at k2
      cases hs : (simClient.Store
          (simClient.Fetch mb (batchSet mbox.Messages) [sectionFetchItem]).1
          (batchSet mbox.Messages) addFlagsSilent [DeletedFlag]).2 with
      | some e =>
        rw [hs] at k2
        refine ⟨[storeOp mbox.Messages], ?_, by simp [storeOp, hset]⟩
        rw [k2.1]; simp [fetchOp, hset]
      | none =>
        rw [hs] at k2
        refine ⟨[storeOp mbox.Messages, ConnOp.Expunge], ?_, by simp [storeOp, hset]⟩
        rw [k2.1]; simp [fetchOp, hset]
  · rw [hitems, numbered_seqNum, hcount]
  · intro herr
    cases hf : mb.fetchErr with
    | some e =>
      have hf2 : (simClient.Fetch mb (batchSet mbox.Messages)
          [sectionFetchItem]).2.2 = some e := hf
      rw [hf2] at k2
      rw [k2.2.1] at herr
      cases herr
    | none =>
      have hf2 : (simClient.Fetch mb (batchSet mbox.Messages)
          [sectionFetchItem]).2.2 = none := hf
      rw [hf2] at k2
      cases hse : mb.storeErr with
      | some e =>
        have hs : (simClient.Store
            (simClient.Fetch mb (batchSet mbox.Messages) [sectionFetchItem]).1
            (batchSet mbox.Messages) addFlagsSilent [DeletedFlag]).2 = some e := by
          simp [simClient, hse]
        rw [hs] at k2
        rw [k2.2.1] at herr
        cases herr
      | none =>
        have hs : simClient.Store
            (simClient.Fetch mb (batchSet mbox.Messages) [sectionFetchItem]).1
            (batchSet mbox.Messages) addFlagsSilent [DeletedFlag]
            = ({ mb with msgs := simMarkDeleted (batchSet mbox.Messages) 1 mb.msgs },
                none) := by
          simp [simClient, hse, addFlagsSilent, DeletedFlag]
        rw [hs] at k2
        simp only at k2
        cases hee : mb.expungeErr with
        | some e =>
          have hx : (simClient.Expunge
              { mb with msgs := simMarkDeleted (batchSet mbox.Messages) 1 mb.msgs }).2
              = some e := by
            simp [simClient, hee]
          rw [k2.2.1, hx] at herr
          cases herr
        | none =>
          have hx : (simClient.Expunge
              { mb with msgs := simMarkDeleted (batchSet mbox.Messages) 1 mb.msgs }).1
              = { mb with msgs := [] } := by
            simp only [simClient, hee, hset]
            rw [simMarkDeleted_all _ 1 mb.msgs hcover]
          refine ⟨?_, ?_⟩
          · rw [k2.1]; simp [fetchOp, storeOp, hset]
          · rw [k2.2.2, hx]; rfl

theorem eventpoll_sim_batch_witness :
    1 ≤ (⟨"INBOX", 2⟩ : MailboxStatus).Messages
      ∧ twoMessages.msgs.length = (⟨"INBOX", 2⟩ : MailboxStatus).Messages
      ∧ (eventpoll simClient goEnv (sampleState subjectTemplate) twoMessages
            ⟨"INBOX", 2⟩ Effects.empty).w.rendered
          = [buildRecord goEnv.now (sampleReader "(" "one"),
             buildRecord goEnv.now (sampleReader "xy" "two")]
      ∧ (eventpoll simClient goEnv (sampleState subjectTemplate) twoMessages
            ⟨"INBOX", 2⟩ Effects.empty).w.stdout
          = ["Subject: (;", "Subject: xy;"]
      ∧ (eventpoll simClient goEnv (sampleState subjectTemplate) twoMessages
            ⟨"INBOX", 2⟩ Effects.empty).conn.msgs.length = 0 :=
  ⟨by decide, rfl,
   (eventpoll_sim_batch goEnv (sampleState subjectTemplate) twoMessages
      ⟨"INBOX", 2⟩ Effects.empty
      [sampleReader "(" "one", sampleReader "xy" "two"] (by decide) rfl rfl
      (by intro mr hmr; simp at hmr; rcases hmr with h | h <;> subst h <;> rfl)).2.2.1,
   by decide,
   ((eventpoll_sim_batch goEnv (sampleState subjectTemplate) twoMessages
      ⟨"INBOX", 2⟩ Effects.empty
      [sampleReader "(" "one", sampleReader "xy" "two"] (by decide) rfl rfl
      (by intro mr hmr; simp at hmr; rcases hmr with h | h <;> subst h <;> rfl)).2.2.2.2
      (by decide)).2⟩

/-! ## The claims on the part loop -/

/-- C7, as stated, fails: for an inline part whose read returns an error after
the bytes `par`, the record `eventpoll` hands to `output` has the body entry
`par`, not the empty string. -/
theorem eventpoll_read_failure_keeps_partial_data :
    (ioReadAll failingPart.Body).2 ≠ none
      ∧ (eventpoll simClient goEnv (sampleState subjectTemplate)
            failingReadMailbox ⟨"INBOX", 1⟩ Effects.empty).w.rendered.map
              Message.Body = [["par"]]
      ∧ (eventpoll simClient goEnv (sampleState subjectTemplate)
            failingReadMailbox ⟨"INBOX", 1⟩ Effects.empty).w.rendered.map
              Message.Body ≠ [[""]] := by
  decide

/-- C7, amended: for every inline part whose body read fails, the part loop of
`eventpoll` logs the error, appends to `Message.Body` the bytes `io.ReadAll`
returned (those read before the failure, so the empty string only when none
was read) and continues with the next part of the same message; in the record
that entry stands between the entries of the inline parts before and after
it. -/
theorem walkParts_read_failure (last : GoError) (pre ps : List Part) (m : Message)
    (log : List GoError) (p : Part) (h : InlineHeader) (e : GoError)
    (hp : p.Header = PartHeader.inline h) (he : (ioReadAll p.Body).2 = some e) :
    walkParts last (p :: ps) m log
        = walkParts last ps { m with Body := m.Body ++ [(ioReadAll p.Body).1] }
            (log ++ [e])
      ∧ (walkParts last (pre ++ p :: ps) m log).m.Body
          = m.Body ++ pre.filterMap inlineContent ++ [(ioReadAll p.Body).1]
              ++ ps.filterMap inlineContent := by
  constructor
  · simp only [walkParts, hp, he, logErr]
  · rw [walkParts_m]
    simp [List.filterMap_append, List.filterMap_cons, inlineContent, hp]

theorem walkParts_read_failure_witness :
    failingPart.Header = PartHeader.inline ⟨"text/plain"⟩
      ∧ (ioReadAll failingPart.Body).2 = some (GoError.other "unexpected EOF")
      ∧ (walkParts GoError.ioEOF
            ((sampleReader "s" "a").parts ++ failingPart :: (sampleReader "s" "b").parts)
            (headerRecord "now" (sampleReader "s" "")) []).m.Body
          = ["a", "par", "b"] :=
  ⟨rfl, rfl,
   (walkParts_read_failure GoError.ioEOF (sampleReader "s" "a").parts
      (sampleReader "s" "b").parts (headerRecord "now" (sampleReader "s" "")) []
      failingPart ⟨"text/plain"⟩ (GoError.other "unexpected EOF") rfl rfl).2⟩

/-- C8: for every fetched item whose body `mail.CreateReader` accepts and whose
part walk ends with `io.EOF`, the record `eventpoll` hands to `output` is
`buildRecord`, whose `Body` is the list of what `io.ReadAll` returned for the
inline parts, in declaration order, and whose `Attachment` is the list, in
declaration order, of one record per attachment part, its `Name` the decoded
filename (empty when the decoding fails) and its `Content` empty; for a
message with the single attachment part named `x.pdf` the list is
`[{Name: "x.pdf", Content: ""}]`. -/
theorem record_of_complete_walk (env : Env) (state : stateT) (date : String)
    (msg : ImapMessage) (r : Literal) (mr : MailReader) (w : Effects)
    (hb : msg.GetBody = some r) (hc : mailCreateReader r = .ok mr)
    (hlast : mr.last = GoError.ioEOF) :
    (processMessages env state date [msg] w).w.rendered
        = w.rendered ++ [buildRecord date mr]
      ∧ (buildRecord date mr).Body = mr.parts.filterMap inlineContent
      ∧ (buildRecord date mr).Attachment = mr.parts.filterMap attachmentRecord
      ∧ (∀ a ∈ (buildRecord date mr).Attachment, a.Content = "")
      ∧ (∀ body, mr.parts = [⟨PartHeader.attachment ⟨.ok "x.pdf"⟩, body⟩] →
          (buildRecord date mr).Attachment = [{ Name := "x.pdf", Content := "" }]) := by
  have hparse : ∀ x ∈ [msg], parsesStructurally x = true := by
    intro x hx
    simp only [List.mem_singleton] at hx
    subst hx
    simp [parsesStructurally, hb, hc, hlast]
  have hrec : recordOf date msg = some (buildRecord date mr) := by
    simp [recordOf, hb, hc]
  have hbody : (buildRecord date mr).Body = mr.parts.filterMap inlineContent := by
    unfold buildRecord
    rw [walkParts_m]
    simp [headerRecord]
  have hatt : (buildRecord date mr).Attachment
      = mr.parts.filterMap attachmentRecord := by
    unfold buildRecord
    rw [walkParts_m]
    simp [headerRecord]
  refine ⟨?_, hbody, hatt, ?_, ?_⟩
  · rw [(processMessages_ok env state date [msg] w hparse).2]
    simp [hrec]
  · intro a ha
    rw [hatt, List.mem_filterMap] at ha
    obtain ⟨p, _, hp⟩ := ha
    unfold attachmentRecord at hp
    split at hp
    · cases hp; rfl
    · cases hp
  · intro body hparts
    rw [hatt, hparts]
    rfl

theorem record_of_complete_walk_witness :
    (eventpoll simClient goEnv (sampleState subjectTemplate)
          ⟨[⟨⟨.ok pdfReader⟩, false⟩], none, none, none⟩ ⟨"INBOX", 1⟩
          Effects.empty).w.rendered.map Message.Attachment
        = [[{ Name := "x.pdf", Content := "" }]]
      ∧ (processMessages goEnv (sampleState subjectTemplate) "now"
            [⟨1, some ⟨.ok pdfReader⟩⟩] Effects.empty).w.rendered
          = [buildRecord "now" pdfReader]
      ∧ (buildRecord "now" pdfReader).Attachment
          = [{ Name := "x.pdf", Content := "" }] :=
  ⟨by decide,
   (record_of_complete_walk goEnv (sampleState subjectTemplate) "now"
      ⟨1, some ⟨.ok pdfReader⟩⟩ ⟨.ok pdfReader⟩ pdfReader Effects.empty rfl rfl
      rfl).1,
   (record_of_complete_walk goEnv (sampleState subjectTemplate) "now"
      ⟨1, some ⟨.ok pdfReader⟩⟩ ⟨.ok pdfReader⟩ pdfReader Effects.empty rfl rfl
      rfl).2.2.2.2 ⟨"%PDF-1.7 many bytes", none⟩ rfl⟩

/-! ## The claim on `output` -/

/-- C10, as stated, fails: the template executes successfully and its complete
rendering is `Subject: hello;`, but `os.Stdout.Write` writes three bytes and
returns an error; `output` drops the count and returns the error, and what
was written to standard output is `Sub`, not the complete rendering. -/
theorem output_short_write_leaves_part :
    (∃ tmpl, shortWriteEnv.tmpl.Parse (funcMap shortWriteEnv) subjectTemplate
          = .ok tmpl
        ∧ tmpl (buildRecord "now" (sampleReader "hello" "b"))
          = ("Subject: hello;", none))
      ∧ output shortWriteEnv (sampleState subjectTemplate)
            (buildRecord "now" (sampleReader "hello" "b")) ["earlier"]
          = ⟨some (GoError.other "write /dev/stdout: broken pipe"),
             ["earlier", "Sub"]⟩
      ∧ (output shortWriteEnv (sampleState subjectTemplate)
            (buildRecord "now" (sampleReader "hello" "b")) ["earlier"]).stdout
          ≠ ["earlier", "Subject: hello;"] := by
  refine ⟨⟨_, rfl, rfl⟩, ?_, ?_⟩ <;> decide

theorem firstBytes_all (n : Nat) (buf : String) (h : buf.length ≤ n) :
    firstBytes n buf = buf := by
  unfold firstBytes
  rw [List.take_of_length_le h]

/-- C10, amended: for every message and template, when the template does not
parse, or its execution returns an error (also after it wrote part of the
rendering to the buffer), `output` returns that error and has written
nothing to standard output; standard output is written only after the whole
template executed successfully, by one `Write` of the complete rendering,
whose error `output` returns: what is written is the first `n` bytes of the
complete rendering, `n` being the count of that `Write`, so exactly the
complete rendering when `Write` wrote all of it, and a part of it, or
nothing, when `Write` fell short. -/
theorem output_writes_after_execution (env : Env) (state : stateT) (m : Message)
    (stdout : List String) :
    (∀ e, env.tmpl.Parse (funcMap env) state.template = .error e →
        output env state m stdout = ⟨some e, stdout⟩)
      ∧ (∀ tmpl, env.tmpl.Parse (funcMap env) state.template = .ok tmpl →
          (∀ e, (tmpl m).2 = some e →
              output env state m stdout = ⟨some e, stdout⟩)
            ∧ ((tmpl m).2 = none →
                output env state m stdout
                    = ⟨(env.stdoutWrite stdout (tmpl m).1).2,
                       stdout ++ [firstBytes (env.stdoutWrite stdout (tmpl m).1).1
                          (tmpl m).1]⟩
                  ∧ ((tmpl m).1.length ≤ (env.stdoutWrite stdout (tmpl m).1).1 →
                      (output env state m stdout).stdout
                        = stdout ++ [(tmpl m).1])))
      ∧ ((output env state m stdout).stdout ≠ stdout →
          ∃ tmpl, env.tmpl.Parse (funcMap env) state.template = .ok tmpl
            ∧ (tmpl m).2 = none
            ∧ (output env state m stdout).stdout
              = stdout ++ [firstBytes (env.stdoutWrite stdout (tmpl m).1).1
                  (tmpl m).1]) := by
  refine ⟨?_, ?_, ?_⟩
  · intro e he
    simp only [output, he]
  · intro tmpl ht
    constructor
    · intro e he
      simp only [output, ht, he]
    · intro he
      have h1 : output env state m stdout
          = ⟨(env.stdoutWrite stdout (tmpl m).1).2,
             stdout ++ [firstBytes (env.stdoutWrite stdout (tmpl m).1).1
                (tmpl m).1]⟩ := by
        simp only [output, ht, he]
      refine ⟨h1, ?_⟩
      intro hlen
      rw [h1, firstBytes_all _ _ hlen]
  · intro hne
    cases hp : env.tmpl.Parse (funcMap env) state.template with
    | error e => simp [output, hp] at hne
    | ok tmpl =>
      cases he : (tmpl m).2 with
      | some e => simp [output, hp, he] at hne
      | none => exact ⟨tmpl, rfl, he, by simp only [output, hp, he]⟩

theorem output_writes_after_execution_witness :
    (∃ tmpl, goEnv.tmpl.Parse (funcMap goEnv) failingTemplate = .ok tmpl
        ∧ tmpl (buildRecord "now" (sampleReader "hello" "b"))
          = ("Subject: ", some (GoError.other "regexp: Compile(()")))
      ∧ output goEnv (sampleState failingTemplate)
            (buildRecord "now" (sampleReader "hello" "b")) ["earlier"]
          = ⟨some (GoError.other "regexp: Compile(()"), ["earlier"]⟩
      ∧ (output goEnv (sampleState subjectTemplate)
            (buildRecord "now" (sampleReader "hello" "b")) ["earlier"]).stdout
          = ["earlier", "Subject: hello;"] :=
  ⟨⟨_, rfl, rfl⟩,
   ((output_writes_after_execution goEnv (sampleState failingTemplate)
      (buildRecord "now" (sampleReader "hello" "b")) ["earlier"]).2.1 _ rfl).1 _ rfl,
   (((output_writes_after_execution goEnv (sampleState subjectTemplate)
      (buildRecord "now" (sampleReader "hello" "b")) ["earlier"]).2.1 _ rfl).2
      rfl).2 (by decide)⟩

/-! ## The claim on `waitevent` -/

theorem waitevent_skip (drain : Option (Option GoError)) (pre rest : List SelectCase)
    (h : allOther pre) : waitevent drain (pre ++ rest) = waitevent drain rest := by
  induction pre with
  | nil => rfl
  | cons sc pre ih =>
    have hsc : sc = SelectCase.update Update.other := h sc (List.mem_cons_self _ _)
    subst hsc
    simp only [List.cons_append, waitevent]
    exact ih (fun x hx => h x (List.mem_cons_of_mem _ hx))

theorem waitevent_shape (drain : Option (Option GoError)) (cases : List SelectCase)
    (r : WaitResult) (h : waitevent drain cases = some r) :
    (∃ pre mb rest, allOther pre
        ∧ cases = pre ++ SelectCase.update (Update.MailboxUpdate mb) :: rest
        ∧ drain ≠ none
        ∧ r = ⟨some mb, none, [WaitOp.closeStop, WaitOp.recvDone]⟩)
      ∨ (∃ pre err rest, allOther pre
        ∧ cases = pre ++ SelectCase.done err :: rest
        ∧ r = ⟨none, some (err.getD GoError.errEOF), []⟩) := by
  induction cases with
  | nil => simp [waitevent] at h
  | cons sc cases ih =>
    cases sc with
    | update u =>
      cases u with
      | MailboxUpdate mb =>
        left
        refine ⟨[], mb, cases, by intro x hx; simp at hx, rfl, ?_, ?_⟩
        · intro hd
          simp [waitevent, hd] at h
        · cases drain with
          | none => simp [waitevent] at h
          | some d =>
            simp only [waitevent, Option.some.injEq] at h
            exact h.symm
      | other =>
        simp only [waitevent] at h
        rcases ih h with ⟨pre, mb, rest, hpre, hc, hd, hr⟩ | ⟨pre, err, rest, hpre, hc, hr⟩
        · left
          refine ⟨SelectCase.update Update.other :: pre, mb, rest, ?_, ?_, hd, hr⟩
          · intro x hx
            simp only [List.mem_cons] at hx
            rcases hx with hx | hx
            · exact hx
            · exact hpre x hx
          · simp [hc]
        · right
          refine ⟨SelectCase.update Update.other :: pre, err, rest, ?_, ?_, hr⟩
          · intro x hx
            simp only [List.mem_cons] at hx
            rcases hx with hx | hx
            · exact hx
            · exact hpre x hx
          · simp [hc]
    | done err =>
      right
      refine ⟨[], err, cases, by intro x hx; simp at hx, rfl, ?_⟩
      cases err with
      | none =>
        simp only [waitevent, Option.some.injEq] at h
        exact h.symm
      | some e =>
        simp only [waitevent, Option.some.injEq] at h
        exact h.symm

/-- C9: (1) when the first case the `select` takes that is not another kind of
update is a mailbox update, and the wait completes once `stop` is closed,
`waitevent` closes `stop`, receives from `done`, and returns the mailbox state
of that update with a `nil` error; while the wait does not complete it does
not return; (2) when that first case is the completion of the wait,
`waitevent` returns a `nil` state and the error of the wait, or `errEOF` when
the wait completed with `nil`; (3) whenever `waitevent` returns, it returns an
error exactly when the completion of the wait was observed before any mailbox
update, and it never returns a `nil` state together with a `nil` error. -/
theorem waitevent_outcomes :
    (∀ pre mb rest d, allOther pre →
        waitevent (some d)
            (pre ++ SelectCase.update (Update.MailboxUpdate mb) :: rest)
          = some ⟨some mb, none, [WaitOp.closeStop, WaitOp.recvDone]⟩)
      ∧ (∀ pre mb rest, allOther pre →
        waitevent none
            (pre ++ SelectCase.update (Update.MailboxUpdate mb) :: rest) = none)
      ∧ (∀ pre err rest drain, allOther pre →
        waitevent drain (pre ++ SelectCase.done err :: rest)
          = some ⟨none, some (err.getD GoError.errEOF), []⟩)
      ∧ (∀ drain cases r, waitevent drain cases = some r →
          ((r.err ≠ none) ↔
              ∃ pre err rest, allOther pre
                ∧ cases = pre ++ SelectCase.done err :: rest)
            ∧ ¬ (r.mbox = none ∧ r.err = none)) := by
  refine ⟨?_, ?_, ?_, ?_⟩
  · intro pre mb rest d hpre
    rw [waitevent_skip _ _ _ hpre]
    rfl
  · intro pre mb rest hpre
    rw [waitevent_skip _ _ _ hpre]
    rfl
  · intro pre err rest drain hpre
    rw [waitevent_skip _ _ _ hpre]
    cases err <;> rfl
  · intro drain cases r h
    rcases waitevent_shape drain cases r h with
      ⟨pre, mb, rest, hpre, hc, hd, hr⟩ | ⟨pre, err, rest, hpre, hc, hr⟩
    · subst hr
      refine ⟨⟨fun hne => absurd rfl hne, ?_⟩, by simp⟩
      rintro ⟨pre2, err2, rest2, hpre2, hc2⟩
      rw [hc2, waitevent_skip _ _ _ hpre2] at h
      cases err2 <;> simp [waitevent] at h
    · subst hr
      exact ⟨⟨fun _ => ⟨pre, err, rest, hpre, hc⟩, fun _ => by simp⟩, by simp⟩

theorem waitevent_outcomes_witness :
    waitevent (some none)
        [SelectCase.update Update.other,
         SelectCase.update (Update.MailboxUpdate ⟨"INBOX", 3⟩),
         SelectCase.done none]
      = some ⟨some ⟨"INBOX", 3⟩, none, [WaitOp.closeStop, WaitOp.recvDone]⟩
      ∧ waitevent (some none)
          [SelectCase.update Update.other, SelectCase.done none,
           SelectCase.update (Update.MailboxUpdate ⟨"INBOX", 3⟩)]
        = some ⟨none, some GoError.errEOF, []⟩ :=
  ⟨waitevent_outcomes.1 [SelectCase.update Update.other] ⟨"INBOX", 3⟩
      [SelectCase.done none] none (by intro x hx; simpa using hx),
   waitevent_outcomes.2.2.1 [SelectCase.update Update.other] none
      [SelectCase.update (Update.MailboxUpdate ⟨"INBOX", 3⟩)] (some none)
      (by intro x hx; simpa using hx)⟩

/-! ## The claims on the template functions -/

/-- C5, as stated, fails: the text `abcdef` matches the expression `^abc`, yet
`re` called with `^abc` first and `abcdef` second is false, because `re`
compiles its second argument and matches its first against it. -/
theorem re_pattern_first_is_false :
    (goRegexp.Compile "^abc").map (fun compiled => compiled "abcdef") = some true
      ∧ re goRegexp "^abc" "abcdef" = .ok false := by
  constructor <;> rfl

/-- C5, amended: `re` takes the text as its first argument and the pattern as
its second: for every valid regular expression `p` and every string `t`,
`re(t, p)` is true exactly when `t` matches `p`; in particular
`re("abcdef", "^abc")` is true and `re("xabc", "^abc")` is false. -/
theorem re_text_first_pattern_second (lib : RegexpLib) (p t : String)
    (compiled : String → Bool) (h : lib.Compile p = some compiled) :
    re lib t p = .ok (compiled t)
      ∧ re goRegexp "abcdef" "^abc" = .ok true
      ∧ re goRegexp "xabc" "^abc" = .ok false := by
  refine ⟨?_, rfl, rfl⟩
  simp only [re, h]

theorem re_text_first_pattern_second_witness :
    (goRegexp.Compile "^abc").isSome = true
      ∧ re goRegexp "abcdef" "^abc" = .ok true :=
  ⟨rfl,
   (re_text_first_pattern_second goRegexp "^abc" "abcdef"
      (fun s => matchAnywhere true [Inst.bol, Inst.lit 'a', Inst.lit 'b', Inst.lit 'c']
        s.data) rfl).1⟩

theorem entityAt_none (c : Char) (cs : List Char) (h : c ≠ '&') :
    entityAt (c :: cs) = none := by
  have h2 : ('&' == c) = false := by
    simp only [beq_eq_false_iff_ne, ne_eq]
    exact fun h3 => h h3.symm
  simp [entityAt, entities, List.find?, List.isPrefixOf, h2]

theorem unescape_escape (c : Char) (r : List Char) :
    unescapeChars 0 (escapeChar c ++ r) = c :: unescapeChars 0 r := by
  unfold escapeChar
  split_ifs with h1 h2 h3 h4 h5 h6
  · subst h1
    simp [unescapeChars, entityAt, entities, List.find?, List.isPrefixOf]
  · subst h2
    simp [unescapeChars, entityAt, entities, List.find?, List.isPrefixOf]
  · subst h3
    simp [unescapeChars, entityAt, entities, List.find?, List.isPrefixOf]
  · subst h4
    simp [unescapeChars, entityAt, entities, List.find?, List.isPrefixOf]
  · subst h5
    simp [unescapeChars, entityAt, entities, List.find?, List.isPrefixOf]
  · subst h6
    simp [unescapeChars, entityAt, entities, List.find?, List.isPrefixOf]
  · show unescapeChars 0 (c :: r) = c :: unescapeChars 0 r
    simp only [unescapeChars, entityAt_none c r h1]

theorem unescape_sanitize (l : List Char) :
    ∀ (m : Bool) (k : Nat), unescapeChars 0 (sanitizeChars m k l) = stripChars m k l := by
  induction l with
  | nil => intro m k; cases m <;> cases k <;> rfl
  | cons c cs ih =>
    intro m k
    cases m with
    | true =>
      simp only [sanitizeChars, stripChars]
      split <;> exact ih _ _
    | false =>
      cases k with
      | succ k => simp only [sanitizeChars, stripChars]; exact ih _ _
      | zero =>
        simp only [sanitizeChars, stripChars]
        split
        · exact ih _ _
        · split
          · have hn : chNewline ≠ '&' := by decide
            simp only [unescapeChars, entityAt_none _ _ hn, ih]
          · split
            · rw [unescape_escape, ih]
            · rw [unescape_escape, ih]

theorem stripChars_length (l : List Char) :
    ∀ (m : Bool) (k : Nat), (stripChars m k l).length ≤ l.length := by
  induction l with
  | nil => intro m k; cases m <;> cases k <;> simp [stripChars]
  | cons c cs ih =>
    intro m k
    cases m with
    | true =>
      simp only [stripChars]
      split <;> exact Nat.le_succ_of_le (ih _ _)
    | false =>
      cases k with
      | succ k => simp only [stripChars]; exact Nat.le_succ_of_le (ih _ _)
      | zero =>
        simp only [stripChars]
        split
        · exact Nat.le_succ_of_le (ih _ _)
        · split
          · simp only [List.length_cons]; exact Nat.succ_le_succ (ih _ _)
          · split
            · simp only [List.length_cons]; exact Nat.succ_le_succ (ih _ _)
            · simp only [List.length_cons]; exact Nat.succ_le_succ (ih _ _)

theorem entityAt_some (c : Char) (cs : List Char) (e : Char × Nat)
    (h : entityAt (c :: cs) = some e) : cs ≠ [] ∧ 2 ≤ e.2 := by
  constructor
  · intro hcs
    subst hcs
    simp [entityAt, entities, List.find?, List.isPrefixOf] at h
  · unfold entityAt at h
    rw [Option.map_eq_some'] at h
    obtain ⟨ent, hfind, he⟩ := h
    have hmem := List.mem_of_find?_eq_some hfind
    subst he
    simp only [entities, List.mem_cons, List.mem_singleton, List.not_mem_nil, or_false] at hmem
    rcases hmem with h | h | h | h | h | h | h <;> subst h <;> decide

theorem stripChars_clean (l : List Char) (h : cleanChars l = true) :
    stripChars false 0 l = l := by
  induction l with
  | nil => rfl
  | cons c cs ih =>
    simp only [cleanChars, Bool.and_eq_true, Bool.not_eq_true', Bool.and_eq_false_iff,
      decide_eq_false_iff_not, decide_eq_true_eq, Option.isNone_iff_eq_none] at h
    obtain ⟨⟨⟨hm, hr⟩, he⟩, hc⟩ := h
    have hm2 : ¬ (c = '<' ∧ opensMarkup cs = true) := by
      rintro ⟨h1, h2⟩
      rcases hm with h | h
      · exact h h1
      · rw [h2] at h; cases h
    simp only [stripChars, hm2, if_false, hr, he, ih hc]

theorem stripChars_fixed (l : List Char) (h : stripChars false 0 l = l) :
    cleanChars l = true := by
  induction l with
  | nil => rfl
  | cons c cs ih =>
    simp only [stripChars] at h
    split at h
    · next hm =>
      have := stripChars_length cs true 0
      rw [h] at this
      simp at this
    · next hm =>
      split at h
      · next hr =>
        simp only [List.cons.injEq] at h
        rw [hr] at h
        exact absurd h.1 (by decide)
      · next hr =>
        split at h
        · next e he =>
          obtain ⟨hcs, h2⟩ := entityAt_some c cs e he
          simp only [List.cons.injEq] at h
          cases cs with
          | nil => exact absurd rfl hcs
          | cons c2 cs2 =>
            obtain ⟨k, hk⟩ : ∃ k, e.2 - 1 = k + 1 := ⟨e.2 - 2, by omega⟩
            have h3 := h.2
            rw [hk] at h3
            simp only [stripChars] at h3
            have := stripChars_length cs2 false k
            rw [h3] at this
            simp at this
        · next he =>
          simp only [List.cons.injEq, true_and] at h
          have hc := ih h
          have hm3 : (decide (c = '<') && opensMarkup cs) = false := by
            cases hd : decide (c = '<') with
            | false => rfl
            | true =>
              cases ho : opensMarkup cs with
              | false => rfl
              | true => exact absurd ⟨of_decide_eq_true hd, ho⟩ hm
          simp [cleanChars, hm3, hr, he, hc]

theorem unescapeChars_blank (l : List Char) (h : l.all Char.isWhitespace = true) :
    unescapeChars 0 l = l := by
  induction l with
  | nil => rfl
  | cons c cs ih =>
    simp only [List.all_cons, Bool.and_eq_true] at h
    have hne : c ≠ '&' := by
      intro hc
      rw [hc] at h
      exact absurd h.1 (by decide)
    simp only [unescapeChars, entityAt_none c cs hne, ih h.2]

theorem strip_fixed_iff (y : String) :
    strip goHtml y = y ↔ cleanText y = true := by
  unfold strip cleanText
  by_cases hb : y.data.all Char.isWhitespace = true
  · have h1 : goHtml.Sanitize y = y := by
      show (if y.data.all Char.isWhitespace = true then y
        else String.mk (sanitizeChars false 0 y.data)) = y
      rw [if_pos hb]
    rw [h1]
    have h2 : goHtml.UnescapeString y = y := by
      show String.mk (unescapeChars 0 y.data) = y
      rw [unescapeChars_blank y.data hb]
    simp [h2, hb]
  · have h1 : goHtml.Sanitize y = String.mk (sanitizeChars false 0 y.data) := by
      show (if y.data.all Char.isWhitespace = true then y
        else String.mk (sanitizeChars false 0 y.data)) = _
      rw [if_neg hb]
    rw [h1]
    have h2 : goHtml.UnescapeString (String.mk (sanitizeChars false 0 y.data))
        = String.mk (stripChars false 0 y.data) := by
      show String.mk (unescapeChars 0 (sanitizeChars false 0 y.data)) = _
      rw [unescape_sanitize]
    rw [h2]
    have hb2 : y.data.all Char.isWhitespace = false := by
      simpa using hb
    rw [hb2, Bool.false_or]
    constructor
    · intro h
      apply stripChars_fixed
      have := congrArg String.data h
      exact this
    · intro h
      rw [stripChars_clean y.data h]

/-- C6, as stated, fails: `strip` of the entity-escaped markup `&lt;b&gt;` is
`<b>`, and `strip` of `<b>` is the empty string. -/
theorem strip_not_idempotent :
    strip goHtml "&lt;b&gt;" = "<b>"
      ∧ strip goHtml (strip goHtml "&lt;b&gt;") = ""
      ∧ strip goHtml (strip goHtml "&lt;b&gt;") ≠ strip goHtml "&lt;b&gt;" := by
  decide

/-- C6, amended: `strip` is sanitization followed by entity decoding, and
`strip(strip(x))` equals `strip(x)` exactly when the stripped text `strip(x)`
is made of blanks only, or contains no markup (no `<` followed by a letter,
`/`, `!` or `?`), no character reference and no carriage return.  A second
`strip` drops markup, decodes a character reference and turns a carriage
return into a line feed; it leaves every other text, such as `it's`,
`Tom & Jerry` or `a > b`, unchanged. -/
theorem strip_idempotent_iff_clean (lib : HtmlLib) (x : String) :
    strip lib x = lib.UnescapeString (lib.Sanitize x)
      ∧ (strip goHtml (strip goHtml x) = strip goHtml x
          ↔ cleanText (strip goHtml x) = true) :=
  ⟨rfl, strip_fixed_iff (strip goHtml x)⟩

theorem strip_idempotent_iff_clean_witness :
    cleanText (strip goHtml "<b>Tom</b> &amp; Jerry") = true
      ∧ strip goHtml "<b>Tom</b> &amp; Jerry" = "Tom & Jerry"
      ∧ strip goHtml (strip goHtml "<b>Tom</b> &amp; Jerry")
          = strip goHtml "<b>Tom</b> &amp; Jerry"
      ∧ strip goHtml "it&#39;s a &gt; b" = "it's a > b"
      ∧ strip goHtml (strip goHtml "it&#39;s a &gt; b") = "it's a > b"
      ∧ cleanText (strip goHtml "&amp;amp;") = false
      ∧ strip goHtml "&amp;amp;" = "&amp;"
      ∧ strip goHtml (strip goHtml "&amp;amp;") = "&" :=
  ⟨by decide, by decide,
   (strip_idempotent_iff_clean goHtml "<b>Tom</b> &amp; Jerry").2.2 (by decide),
   by decide, by decide, by decide, by decide, by decide⟩

end Imappipe
